import Mathlib

/-!
# H.A.C.A. Deep Dive Archives: the core terminal logic of `src/main.js`

A shallow embedding of the terminal's core: the search filter (`handleSearch`), the two
account-switch paths (`handleLogin` / `loginSuccess` and `handleCommandLogin`), the document
viewer (`openDocument`, `applyGlitchEffects`) and the markup rewriter
(`parseDocumentContent`).

Conventions of the embedding.

* A JavaScript string is a `List Char`.  Every regular expression of the source works
  unit by unit and tests only characters of the basic plane, so a list of characters and a
  list of UTF-16 code units behave alike under them.
* The mutable singleton `GameState` is passed and returned explicitly.  What a handler
  does to the page (DOM writes, `alert`, timers, sounds) is returned as a list of
  `Effect`s in program order.
* `setTimeout` callbacks are `Deferred` values; `step` keeps the scheduled ones in
  `World.pending` and runs one when the action `Action.timer` fires it.
* `GAME_DATA` is not part of `src/`; it is the parameter `GameData`.
* `toUpperCase` / `toLowerCase` are the host's (full Unicode) and are the parameter `Host`;
  `Math.random().toString(36)` is supplied per call by the parameter `rnd`.
* Clearances and counters are natural numbers, `sanity` is an integer (`100 - n * 5` is
  computed before `Math.max` clamps it).
-/

namespace HACA

/-! ## Strings -/

/-- A JavaScript string. -/
abbrev JSString := List Char

/-- The two case conversions of the host, `String.prototype.toUpperCase` and
`String.prototype.toLowerCase`. -/
structure Host where
  toUpperCase : JSString → JSString
  toLowerCase : JSString → JSString

/-- An ASCII-only host, used to evaluate the model on concrete inputs. -/
def asciiHost : Host where
  toUpperCase := fun s => s.map Char.toUpper
  toLowerCase := fun s => s.map Char.toLower

/-- ECMAScript `WhiteSpace` and `LineTerminator` code points, the ones `trim` strips. -/
def isWhiteSpace (c : Char) : Bool :=
  [9, 10, 11, 12, 13, 32, 0xA0, 0x1680, 0x2028, 0x2029, 0x202F, 0x205F, 0x3000, 0xFEFF].contains
      c.toNat
    || (0x2000 ≤ c.toNat && c.toNat ≤ 0x200A)

/-- `String.prototype.trim`. -/
def trim (s : JSString) : JSString :=
  ((s.dropWhile isWhiteSpace).reverse.dropWhile isWhiteSpace).reverse

/-- `s.includes(t)`: `t` occurs in `s` as a contiguous substring. -/
def includes : JSString → JSString → Bool
  | [], t => t.isEmpty
  | c :: cs, t => t.isPrefixOf (c :: cs) || includes cs t

/-- `s.substring(a, b)` for `a ≤ b`. -/
def substring (s : JSString) (a b : Nat) : JSString := (s.drop a).take (b - a)

/-! ## `String.prototype.replace` with a global regular expression -/

/-- The loop of `html.replace(regex, replacer)` for a regex with the `g` flag.

`m prev s` is the regex tried at the current position: `prev` is the character just
before it (none at the start of the input), `s` the input from the position on; the result
is the length of the match, if there is one.  `rep n matched` is the replacement of the
`n`-th match (counted from 0).  After a match the scan resumes behind it: `skip` counts
the characters of the match still to step over.  No regex of this file matches the empty
string, so a match of length 0 is not a case. -/
def replaceAllAux (m : Option Char → JSString → Option Nat) (rep : Nat → JSString → JSString) :
    Nat → Nat → Option Char → JSString → JSString
  | _, _, _, [] => []
  | n, skip + 1, _, c :: rest => replaceAllAux m rep n skip (some c) rest
  | n, 0, prev, c :: rest =>
    match m prev (c :: rest) with
    | some (len + 1) =>
        rep n ((c :: rest).take (len + 1)) ++ replaceAllAux m rep (n + 1) len (some c) rest
    | _ => c :: replaceAllAux m rep n 0 (some c) rest

/-- `s.replace(regex, replacer)` for a global regex: see `replaceAllAux`. -/
def replaceAll (m : Option Char → JSString → Option Nat) (rep : Nat → JSString → JSString)
    (s : JSString) : JSString :=
  replaceAllAux m rep 0 0 none s

/-- A regex that is one literal string, such as `/\[数据删除\]/`. -/
def matchLiteral (pat : JSString) (_ : Option Char) (s : JSString) : Option Nat :=
  if pat.isPrefixOf s then some pat.length else none

/-- The class `\w` of a regex without the `u` flag: `[A-Za-z0-9_]`. -/
def isWordChar (c : Char) : Bool := c.isAlphanum || c == '_'

/-- Whether the position holds a word character; the two ends of the input do not. -/
def isWordAt : Option Char → Bool
  | some c => isWordChar c
  | none => false

/-- The assertion `\b` between the characters `prev` and `next`: exactly one of the two
is a word character. -/
def wordBoundary (prev next : Option Char) : Bool := isWordAt prev != isWordAt next

/-- Case folding of the `i` flag (`Canonicalize` without `u`): the character's upper case,
where a character outside ASCII never folds to an ASCII one.  Every character of the
keyword list is an ASCII letter or digit or a CJK ideograph, and against those the folding
identifies exactly the two cases of an ASCII letter. -/
def canonicalize (c : Char) : Char := c.toUpper

/-- The rest of `\bKEYWORD\b` once the leading `\b` holds: the keyword's characters, folded,
then the closing `\b` between the last matched character and the next one. -/
def matchChars : JSString → Option Char → JSString → Bool
  | [], prev, s => wordBoundary prev s.head?
  | k :: ks, _, c :: cs => canonicalize c == canonicalize k && matchChars ks (some c) cs
  | _ :: _, _, [] => false

/-- The regex `new RegExp("\\b" + keyword + "\\b", "gi")` tried at one position. -/
def matchKeyword (keyword : JSString) (prev : Option Char) (s : JSString) : Option Nat :=
  if wordBoundary prev s.head? && matchChars keyword prev s then some keyword.length else none

/-- A `LineTerminator`, which `.` does not match: LF, CR, U+2028, U+2029. -/
def isLineTerminator (c : Char) : Bool := [10, 13, 0x2028, 0x2029].contains c.toNat

/-- The part `(.*?)\]` of the warning regex: the number of characters before the first
`]`, provided no line terminator comes before it. -/
def lazyUntilClose : JSString → Option Nat
  | [] => none
  | c :: cs =>
    if c == ']' then some 0
    else if isLineTerminator c then none
    else (lazyUntilClose cs).map (· + 1)

/-- The opening `[警告` of the warning regex. -/
def warningOpen : JSString := "[警告".toList

/-- The regex `/\[警告(.*?)\]/g` tried at one position. -/
def matchWarning (_ : Option Char) (s : JSString) : Option Nat :=
  if warningOpen.isPrefixOf s then (lazyUntilClose (s.drop 3)).map (· + 4) else none

/-! ## `parseDocumentContent` -/

def redactedToken : JSString := "[数据删除]".toList

def corruptedToken : JSString := "[数据损坏]".toList

def glitchToken : JSString := "[乱码]".toList

def redactedSpan : JSString :=
  "<span class=\"redacted\" title=\"需要更高权限\">[数据删除]</span>".toList

def corruptedSpan : JSString :=
  "<span class=\"corrupted\" title=\"数据已损坏\">[数据损坏]</span>".toList

def glitchOpen : JSString := "<span class=\"glitch-text\">█▓▒░".toList

def glitchClose : JSString := "░▒▓█</span>".toList

/-- The randomised core of a glitch span, from `r = Math.random().toString(36)`:
`r.substring(2, 8).toUpperCase()`. -/
def glitchCore (h : Host) (r : JSString) : JSString := h.toUpperCase (substring r 2 8)

/-- The replacer of rule 2: the span around `'█▓▒░' + core + '░▒▓█'`. -/
def glitchSpan (h : Host) (r : JSString) : JSString := glitchOpen ++ glitchCore h r ++ glitchClose

def keywordOpen : JSString := "<span class=\"keyword-highlight\" title=\"点击搜索: ".toList

def keywordMid : JSString := "\">".toList

def keywordClose : JSString := "</span>".toList

/-- The replacer of rule 3, with `match` the matched text: the text is put into the `title`
attribute and into the span. -/
def keywordSpan (matched : JSString) : JSString :=
  keywordOpen ++ matched ++ keywordMid ++ matched ++ keywordClose

/-- The replacement of rule 4; `$1` is the text between `[警告` and `]`. -/
def warningSpan (matched : JSString) : JSString :=
  "<span class=\"warning-text\">⚠ ".toList ++ (matched.drop 3).dropLast ++ "</span>".toList

def lineBreak : JSString := "<br>".toList

/-- The list `keywords` of `parseDocumentContent`. -/
def keywords : List JSString :=
  ["THORNE".toList, "VANCE".toList, "KAELEN".toList, "B4".toList, "共鸣".toList,
    "RESONANCE".toList, "弥米尔".toList, "MIMIR".toList]

/-- Rule 1: the two literal markers. -/
def redactRule (html : JSString) : JSString :=
  replaceAll (matchLiteral corruptedToken) (fun _ _ => corruptedSpan)
    (replaceAll (matchLiteral redactedToken) (fun _ _ => redactedSpan) html)

/-- Rule 2: every `[乱码]`, the `n`-th one with the random value `rnd n`. -/
def glitchRule (h : Host) (rnd : Nat → JSString) (html : JSString) : JSString :=
  replaceAll (matchLiteral glitchToken) (fun n _ => glitchSpan h (rnd n)) html

/-- One round of the `keywords.forEach` of rule 3. -/
def keywordRule (keyword : JSString) (html : JSString) : JSString :=
  replaceAll (matchKeyword keyword) (fun _ matched => keywordSpan matched) html

/-- Rule 3: the rounds of `keywords.forEach`, each on the output of the one before. -/
def keywordStage (kws : List JSString) (html : JSString) : JSString :=
  kws.foldl (fun acc keyword => keywordRule keyword acc) html

/-- Rule 4. -/
def warningRule (html : JSString) : JSString :=
  replaceAll matchWarning (fun _ matched => warningSpan matched) html

/-- Rule 5. -/
def newlineRule (html : JSString) : JSString :=
  replaceAll (matchLiteral ['\n']) (fun _ _ => lineBreak) html

/-- `parseDocumentContent(content)`; `rnd n` is what `Math.random().toString(36)` returns
at the `n`-th `[乱码]`. -/
def parseDocumentContent (h : Host) (rnd : Nat → JSString) (content : JSString) : JSString :=
  let html := content
  let html := redactRule html
  let html := glitchRule h rnd html
  let html := keywordStage keywords html
  let html := warningRule html
  let html := newlineRule html
  html

/-! ## Data: `GAME_DATA` and `GameState` -/

/-- An account record of `GAME_DATA`. -/
structure User where
  name : JSString
  clearance : Nat
  infected : Bool
  deriving DecidableEq

/-- A document record of `GAME_DATA.documents`. -/
structure Document where
  id : JSString
  title : JSString
  type : JSString
  scl : Nat
  keywords : List JSString
  content : JSString
  deriving DecidableEq

/-- The global `GAME_DATA`: an account table is read by key (`table[inputId]`), and
`hiddenUsers` and `secretUsers` may be missing altogether.  Both callers upper-case the key
first and no property inherited from `Object.prototype` has an upper-case name, so a table
answers with its own entries only. -/
structure GameData where
  users : JSString → Option User
  hiddenUsers : Option (JSString → Option User)
  secretUsers : Option (JSString → Option User)
  documents : List Document

/-- What the handlers run against: the host's case conversions, the game data, and whether
`initAudioSystem` has installed `AudioSystem.playSuccess` / `playError`. -/
structure Env where
  host : Host
  data : GameData
  audioReady : Bool

/-- The object `GameState`; `unlockedDocs` is the `Set` in insertion order. -/
structure GameState where
  currentUser : Option User
  currentSCL : Nat
  unlockedDocs : List JSString
  sanity : Int
  readDangerousDocs : Nat
  firstTime : Bool
  deriving DecidableEq

/-- The initial value of `GameState`. -/
def GameState.init : GameState where
  currentUser := none
  currentSCL := 0
  unlockedDocs := []
  sanity := 100
  readDangerousDocs := 0
  firstTime := true

/-- `Set.prototype.add`. -/
def setAdd (s : List JSString) (x : JSString) : List JSString :=
  if s.contains x then s else s ++ [x]

/-! ## Effects on the page -/

/-- The texts the handlers show. -/
inductive Message where
  /-- The text "正在验证身份...". -/
  | verifying
  /-- The text "错误：无效的雇员 ID。". -/
  | invalidEmployee
  /-- The list of commands shown by `HELP`. -/
  | help
  /-- The text "> 正在验证用户 [id]...". -/
  | verifyingUser (inputId : JSString)
  /-- The text "> 身份验证成功。 > 欢迎回来, name。 > 当前安全等级已更新为: SCL-n". -/
  | loginOk (name : JSString) (clearance : Nat)
  /-- The text "> 错误：用户 [id] 无法识别。 > 访问被拒绝。". -/
  | unrecognized (inputId : JSString)
  /-- The text "未找到与 "query" 相关的记录。". -/
  | notFound (query : JSString)
  /-- The welcome text of `showTutorial`. -/
  | tutorial
  deriving DecidableEq

/-- A callback handed to `setTimeout`. -/
inductive Deferred where
  /-- The callback of `handleLogin`: look `inputId` up and log in. -/
  | loginLookup (inputId : JSString)
  /-- The callback of `handleCommandLogin`: switch to `user`. -/
  | commandLogin (user : User)
  /-- The callback of `loginSuccess`: `showTutorial()`. -/
  | showTutorial
  deriving DecidableEq

/-- What a handler does outside `GameState`, one constructor per kind of statement. -/
inductive Effect where
  /-- Assignment to `DOM.loginMessage.textContent`. -/
  | loginMessage (m : Message)
  /-- The statement `e.target.value = ''` of the login box. -/
  | clearLoginInput
  /-- The statement `e.target.value = ''` of the search box. -/
  | clearSearchInput
  /-- A call `renderSystemMessage(m)`. -/
  | systemMessage (m : Message)
  /-- The header and the clickable items `renderSearchResults` builds for a non-empty list. -/
  | showResults (results : List Document)
  /-- The two badges `DOM.badges.user` and `DOM.badges.scl`. -/
  | setBadges (name : JSString) (clearance : Nat)
  /-- A call `switchScreen('terminal')`. -/
  | switchScreenTerminal
  /-- A call `showSearchView()`. -/
  | showSearchView
  /-- The fields of `DOM.doc` and `switchView('document')`; `body` is the `innerHTML`. -/
  | showDocument (doc : Document) (body : JSString)
  /-- The `alert` of a denied `openDocument`. -/
  | alertAccessDenied
  /-- A call `AudioSystem.playSuccess()`. -/
  | playSuccess
  /-- A call `AudioSystem.playError()`. -/
  | playError
  /-- Mild disturbance: `document.body.style.filter = 'hue-rotate(5deg)'`. -/
  | hueRotate
  /-- Moderate disturbance: the `setInterval` of the recurring flash. -/
  | startFlashTimer
  /-- Severe disturbance: `document.body.classList.add('heavy-glitch')`. -/
  | heavyGlitch
  /-- A call `applyInfectedEffects()`. -/
  | applyInfectedEffects
  /-- A call `setTimeout(callback, delay)`. -/
  | setTimeout (callback : Deferred)
  /-- A call `location.reload()`. -/
  | reload
  deriving DecidableEq

/-- The key name of the Enter key. -/
def enterKey : JSString := "Enter".toList

/-! ## Login -/

/-- The lookup shared by `handleLogin` and `handleCommandLogin`: `users`, then
`hiddenUsers`, then `secretUsers`. -/
def findUser (d : GameData) (inputId : JSString) : Option User :=
  let user := d.users inputId
  let user :=
    match user, d.hiddenUsers with
    | none, some hidden => hidden inputId
    | u, _ => u
  let user :=
    match user, d.secretUsers with
    | none, some secret => secret inputId
    | u, _ => u
  user

/-- `loginSuccess(id, user)`. -/
def loginSuccess (s : GameState) (_id : JSString) (user : User) : GameState × List Effect :=
  let s := { s with currentUser := some user, currentSCL := user.clearance }
  let shown := [Effect.setBadges user.name user.clearance, Effect.switchScreenTerminal]
  let shown := if user.infected then shown ++ [Effect.applyInfectedEffects] else shown
  if s.firstTime && user.clearance == 1 then
    ({ s with firstTime := false }, shown ++ [Effect.setTimeout Deferred.showTutorial])
  else
    (s, shown ++ [Effect.showSearchView])

/-- `handleLogin(e)`, with `key = e.key` and `value = e.target.value`. -/
def handleLogin (env : Env) (s : GameState) (key value : JSString) : GameState × List Effect :=
  if key = enterKey then
    let inputId := env.host.toUpperCase (trim value)
    (s, [Effect.loginMessage Message.verifying, Effect.setTimeout (Deferred.loginLookup inputId)])
  else
    (s, [])

/-- The callback `handleLogin` schedules. -/
def loginCallback (env : Env) (s : GameState) (inputId : JSString) : GameState × List Effect :=
  match findUser env.data inputId with
  | some user => loginSuccess s inputId user
  | none => (s, [Effect.loginMessage Message.invalidEmployee, Effect.clearLoginInput])

/-- `handleCommandLogin(inputId)`. -/
def handleCommandLogin (env : Env) (s : GameState) (inputId : JSString) :
    GameState × List Effect :=
  match findUser env.data inputId with
  | some user =>
    (s, [Effect.systemMessage (Message.verifyingUser inputId),
         Effect.setTimeout (Deferred.commandLogin user)])
  | none =>
    (s, [Effect.systemMessage (Message.unrecognized inputId)]
          ++ (if env.audioReady then [Effect.playError] else []))

/-- The callback `handleCommandLogin` schedules for a found account. -/
def commandLoginCallback (env : Env) (s : GameState) (user : User) : GameState × List Effect :=
  ({ s with currentUser := some user, currentSCL := user.clearance },
    [Effect.setBadges user.name user.clearance,
     Effect.systemMessage (Message.loginOk user.name user.clearance)]
      ++ (if env.audioReady then [Effect.playSuccess] else []))

/-! ## Search -/

/-- The callback of `GAME_DATA.documents.filter` in `handleSearch`. -/
def searchFilter (h : Host) (currentSCL : Nat) (searchKey : JSString) (doc : Document) : Bool :=
  if doc.scl > currentSCL then false
  else
    let idMatch := includes (h.toLowerCase doc.id) searchKey
    let keywordMatch := doc.keywords.any (fun k => includes (h.toLowerCase k) searchKey)
    let titleMatch := includes (h.toLowerCase doc.title) searchKey
    idMatch || keywordMatch || titleMatch

/-- `renderSearchResults(results, query)`. -/
def renderSearchResults (results : List Document) (query : JSString) : List Effect :=
  if results.length = 0 then [Effect.systemMessage (Message.notFound query)]
  else [Effect.showResults results]

/-- `handleSearch(e)`, with `key = e.key` and `value = e.target.value`. -/
def handleSearch (env : Env) (s : GameState) (key value : JSString) : GameState × List Effect :=
  if key = enterKey then
    let query := trim value
    if query = [] then (s, [])
    else
      let upperQuery := env.host.toUpperCase query
      if "LOGIN ".toList.isPrefixOf upperQuery then
        let r := handleCommandLogin env s (trim (upperQuery.drop 6))
        (r.1, r.2 ++ [Effect.clearSearchInput])
      else if upperQuery = "LOGOUT".toList ∨ upperQuery = "EXIT".toList then
        (s, [Effect.reload])
      else if upperQuery = "HELP".toList then
        (s, [Effect.systemMessage Message.help, Effect.clearSearchInput])
      else
        let searchKey := env.host.toLowerCase query
        let results := env.data.documents.filter (searchFilter env.host s.currentSCL searchKey)
        (s, renderSearchResults results query)
  else
    (s, [])

/-! ## Opening a document -/

/-- `applyGlitchEffects()`, reading `GameState.readDangerousDocs`. -/
def applyGlitchEffects (s : GameState) : List Effect :=
  let level := s.readDangerousDocs
  (if level ≥ 3 then [Effect.hueRotate] else [])
    ++ (if level ≥ 6 then [Effect.startFlashTimer] else [])
    ++ (if level ≥ 10 then [Effect.heavyGlitch] else [])

/-- `openDocument(doc)`; `rnd` supplies the random values of `parseDocumentContent`. -/
def openDocument (env : Env) (rnd : Nat → JSString) (s : GameState) (doc : Document) :
    GameState × List Effect :=
  if doc.scl > s.currentSCL then
    (s, [Effect.alertAccessDenied])
  else
    let shown := [Effect.showDocument doc (parseDocumentContent env.host rnd doc.content)]
    let s := { s with unlockedDocs := setAdd s.unlockedDocs doc.id }
    if doc.scl ≥ 3 then
      let s := { s with readDangerousDocs := s.readDangerousDocs + 1 }
      let s := { s with sanity := max 0 (100 - (s.readDangerousDocs : Int) * 5) }
      (s, shown ++ applyGlitchEffects s)
    else
      (s, shown)

/-! ## The page as a transition system -/

/-- The running page: `GameState`, the `setTimeout` callbacks not yet run, and the effects
performed since the page was loaded. -/
structure World where
  state : GameState
  pending : List Deferred
  trace : List Effect

/-- The page as loaded. -/
def World.init : World where
  state := GameState.init
  pending := []
  trace := []

/-- What can happen to the page. -/
inductive Action where
  /-- A `keypress` in the login box. -/
  | loginKeypress (key value : JSString)
  /-- A `keypress` in the search box. -/
  | searchKeypress (key value : JSString)
  /-- A click on a search result: `openDocument(doc)`, with the random values it draws. -/
  | openDocument (doc : Document) (rnd : Nat → JSString)
  /-- The `i`-th pending `setTimeout` callback runs. -/
  | timer (i : Nat)

/-- The callbacks a handler scheduled. -/
def scheduled : List Effect → List Deferred
  | [] => []
  | Effect.setTimeout d :: rest => d :: scheduled rest
  | _ :: rest => scheduled rest

/-- The page after a handler returned `r`: `location.reload()` starts the page afresh,
otherwise the state is `r.1`, the effects are recorded and the callbacks are queued. -/
def World.after (w : World) (r : GameState × List Effect) : World :=
  if Effect.reload ∈ r.2 then World.init
  else { state := r.1, pending := w.pending ++ scheduled r.2, trace := w.trace ++ r.2 }

/-- Running a `setTimeout` callback. -/
def runDeferred (env : Env) (s : GameState) : Deferred → GameState × List Effect
  | Deferred.loginLookup inputId => loginCallback env s inputId
  | Deferred.commandLogin user => commandLoginCallback env s user
  | Deferred.showTutorial => (s, [Effect.systemMessage Message.tutorial])

/-- One event of the page. -/
def step (env : Env) (w : World) : Action → World
  | Action.loginKeypress key value => w.after (handleLogin env w.state key value)
  | Action.searchKeypress key value => w.after (handleSearch env w.state key value)
  | Action.openDocument doc rnd => w.after (openDocument env rnd w.state doc)
  | Action.timer i =>
    match w.pending.get? i with
    | none => w
    | some d => { w with pending := w.pending.eraseIdx i }.after (runDeferred env w.state d)

/-- A finite sequence of events. -/
def run (env : Env) (w : World) (actions : List Action) : World :=
  actions.foldl (step env) w

/-- The search-box input is the command `LOGOUT` or `EXIT`, the one that reloads the page. -/
def isLogout (h : Host) (key value : JSString) : Bool :=
  key == enterKey && trim value != [] &&
    (h.toUpperCase (trim value) == "LOGOUT".toList || h.toUpperCase (trim value) == "EXIT".toList)

/-- The action reloads the page. -/
def Action.reloads (h : Host) : Action → Bool
  | Action.searchKeypress key value => isLogout h key value
  | _ => false

/-! ## Sample data for concrete runs -/

/-- A clearance-1 account. -/
def intern : User := ⟨"Intern".toList, 1, false⟩

/-- A clearance-5 account. -/
def director : User := ⟨"Director".toList, 5, false⟩

/-- A clearance-4 account whose `infected` flag is set. -/
def carrier : User := ⟨"Carrier".toList, 4, true⟩

/-- A clearance-1 document. -/
def sysDoc : Document :=
  ⟨"SYS-001".toList, "Guide".toList, "MANUAL".toList, 1, ["guide".toList], "Welcome.".toList⟩

/-- A clearance-4 document whose id also contains `SYS-001`. -/
def sealedDoc : Document :=
  ⟨"SYS-001-X".toList, "Sealed".toList, "REPORT".toList, 4, ["sys-001".toList], "B4".toList⟩

/-- A clearance-3 document. -/
def incidentDoc : Document :=
  ⟨"INC-003".toList, "Incident".toList, "REPORT".toList, 3, [], "[数据删除]".toList⟩

/-- A clearance-5 document. -/
def coreDoc : Document :=
  ⟨"CORE-005".toList, "Core".toList, "LOG".toList, 5, [], "MIMIR".toList⟩

/-- Sample game data: one account in each of the three tables. -/
def sampleData : GameData where
  users := fun k => if k = "INTERN-01".toList then some intern else none
  hiddenUsers := some fun k => if k = "DIR-05".toList then some director else none
  secretUsers := some fun k => if k = "ECHO-04".toList then some carrier else none
  documents := [sysDoc, sealedDoc, incidentDoc, coreDoc]

/-- The sample data under the ASCII host, with the audio system installed. -/
def sampleEnv : Env := ⟨asciiHost, sampleData, true⟩

/-- A random source that returns the same value at every call. -/
def constRnd (r : JSString) : Nat → JSString := fun _ => r

/-- A session of `u`, not the first one, with `n` dangerous reads so far. -/
def sessionOf (u : User) (n : Nat) : GameState where
  currentUser := some u
  currentSCL := u.clearance
  unlockedDocs := []
  sanity := max 0 (100 - (n : Int) * 5)
  readDangerousDocs := n
  firstTime := false

/-- The director logs in at the login screen and the deferred lookup runs. -/
def directorLogsIn : List Action :=
  [Action.loginKeypress enterKey " dir-05".toList, Action.timer 0]

/-- A search, twenty-one reads of the clearance-3 document, a switch to the intern through
the `LOGIN` command, and an open that is denied to him. -/
def manyReads : List Action :=
  Action.searchKeypress enterKey "inc".toList ::
    (List.replicate 21 (Action.openDocument incidentDoc (constRnd [])) ++
      [Action.searchKeypress enterKey "login intern-01".toList, Action.timer 0,
        Action.openDocument sealedDoc (constRnd [])])

/-- The intern logs in at the login screen (the tutorial is scheduled), then switches to the
infected account with the `LOGIN` command, and the command's deferred callback runs. -/
def switchToCarrier : List Action :=
  [Action.loginKeypress enterKey "intern-01".toList, Action.timer 0,
    Action.searchKeypress enterKey "login echo-04".toList, Action.timer 1]

/-- The infected account logs in at the login screen and the deferred lookup runs. -/
def carrierLogsIn : List Action :=
  [Action.loginKeypress enterKey "echo-04".toList, Action.timer 0]

/-- The director logs in and opens the clearance-3 document seven times. -/
def sevenReads : List Action :=
  directorLogsIn ++ List.replicate 7 (Action.openDocument incidentDoc (constRnd []))

/-- The entry of an account table that may be missing: `table && table[inputId]`. -/
def lookupIn (table : Option (JSString → Option User)) (inputId : JSString) : Option User :=
  table.bind fun t => t inputId

/-! ## Properties named by the theorems -/

/-- The matching rule as the specification words it: the document is accessible at
clearance `c`, and the lower-cased query is contained in the lower-cased id, in some
lower-cased keyword, or in the lower-cased title. -/
def SpecMatches (h : Host) (c : Nat) (q : JSString) (doc : Document) : Prop :=
  doc.scl ≤ c ∧
    (h.toLowerCase q <:+: h.toLowerCase doc.id ∨
      (∃ k ∈ doc.keywords, h.toLowerCase q <:+: h.toLowerCase k) ∨
      h.toLowerCase q <:+: h.toLowerCase doc.title)

instance (h : Host) (c : Nat) (q : JSString) : DecidablePred (SpecMatches h c q) :=
  fun _ => inferInstanceAs (Decidable (_ ∧ _))

/-- The input is none of the commands `LOGIN …`, `LOGOUT`, `EXIT`, `HELP`. -/
def NotCommand (h : Host) (q : JSString) : Prop :=
  "LOGIN ".toList.isPrefixOf (h.toUpperCase q) = false ∧ h.toUpperCase q ≠ "LOGOUT".toList ∧
    h.toUpperCase q ≠ "EXIT".toList ∧ h.toUpperCase q ≠ "HELP".toList

/-- The exposure formula: `sanity` is `max(0, 100 - 5 * readDangerousDocs)`. -/
def SanityFormula (s : GameState) : Prop :=
  s.sanity = max 0 (100 - 5 * (s.readDangerousDocs : Int))

/-- A case-insensitive occurrence of `keyword` at the head of `s` that stands as a whole
word in the specification's sense: the character before it and the character after it, where
there is one, is no letter, digit or underscore. -/
def wholeWordAt (keyword : JSString) (prev : Option Char) (s : JSString) : Bool :=
  (s.take keyword.length).map canonicalize == keyword.map canonicalize
    && !isWordAt prev && !isWordAt (s.drop keyword.length).head?

/-- Some position of the text after `prev` holds a whole-word occurrence of `keyword`. -/
def hasWholeWordFrom (keyword : JSString) : Option Char → JSString → Bool
  | _, [] => false
  | prev, c :: cs => wholeWordAt keyword prev (c :: cs) || hasWholeWordFrom keyword (some c) cs

/-- The body holds a whole-word occurrence of `keyword`. -/
def hasWholeWord (keyword : JSString) (body : JSString) : Bool :=
  hasWholeWordFrom keyword none body

/-! ## Notions used to reason about `replaceAll` -/

/-- A matcher never reports a match longer than the input that is left. -/
def Bounded (m : Option Char → JSString → Option Nat) : Prop :=
  ∀ prev s len, m prev s = some len → len ≤ s.length

/-- The character `x` separates matches of `m`: no match reaches it, what comes from it on
does not change the result of a match tried before it, and a match tried right after it
sees the same as at the start of the input. -/
structure Separator (m : Option Char → JSString → Option Nat) (x : Char) : Prop where
  cut : ∀ prev a b, m prev (a ++ x :: b) = m prev a
  fresh : ∀ s, m (some x) s = m none s

/-- The character is a separator for the keyword: no word character, and not (up to case)
a character of the keyword. -/
def isSeparatorFor (keyword : JSString) (x : Char) : Bool :=
  !isWordChar x && keyword.all fun k => canonicalize x != canonicalize k

/-- The markup `x₀ … xₙ` is framed by two separators of the keyword and the keyword's rule
leaves what is between them as it is. -/
def framedFor (keyword : JSString) (markup : JSString) : Bool :=
  match markup with
  | [] => false
  | x :: rest =>
    match rest.reverse with
    | [] => false
    | y :: mid =>
      isSeparatorFor keyword x && isSeparatorFor keyword y
        && keywordRule keyword mid.reverse == mid.reverse

/-- The matcher finds nothing at any position of the text after `prev`. -/
def noMatchFrom (m : Option Char → JSString → Option Nat) : Option Char → JSString → Bool
  | _, [] => true
  | prev, c :: cs => (m prev (c :: cs)).isNone && noMatchFrom m (some c) cs

/-- The rounds of `keywords.forEach` that come after the round of `keyword`. -/
def roundsAfter (keyword : JSString) : List JSString :=
  (keywords.dropWhile fun k => k != keyword).drop 1

/-- No `[警` stands in the text and the text does not end in `[`: the opening `[警告` of the
warning regex cannot begin inside it. -/
def noWarningOpen : JSString → Bool
  | [] => true
  | c :: rest =>
    (c != '[' || (match rest with
      | d :: _ => d != '警'
      | [] => false)) && noWarningOpen rest

/-- The text begins with `keyword`, up to case. -/
def occursAt (keyword : JSString) (s : JSString) : Bool :=
  (s.take keyword.length).map canonicalize == keyword.map canonicalize

/-- The keyword occurs somewhere in the body, up to case, as a whole word or not. -/
def hasOccurrence (keyword : JSString) : JSString → Bool
  | [] => false
  | c :: cs => occursAt keyword (c :: cs) || hasOccurrence keyword cs

/-- What the body must not hold for the keyword's round to leave it alone: a whole-word
occurrence of a keyword made of letters and digits, any occurrence of another (CJK) one. -/
def keywordAbsent (keyword : JSString) (body : JSString) : Bool :=
  if keyword.all isWordChar then !hasWholeWord keyword body else !hasOccurrence keyword body

/-- The session's clearance is the clearance of the account it is bound to, and 0 while no
account is bound. -/
def ClearanceBound (s : GameState) : Prop :=
  match s.currentUser with
  | some u => s.currentSCL = u.clearance
  | none => s.currentSCL = 0

/-! # Theorems -/

/-! ## Search: the result list (C1) -/

theorem includes_iff_infix (s t : JSString) : includes s t = true ↔ t <:+: s := by
  induction s with
  | nil => simp [includes, List.isEmpty_iff]
  | cons c cs ih =>
    simp only [includes, Bool.or_eq_true, ih, List.infix_cons_iff, List.isPrefixOf_iff_prefix]

theorem searchFilter_iff (h : Host) (c : Nat) (q : JSString) (doc : Document) :
    searchFilter h c (h.toLowerCase q) doc = true ↔ SpecMatches h c q doc := by
  unfold searchFilter SpecMatches
  by_cases hc : doc.scl > c
  · simp [hc]
  · simp only [hc, if_false, Bool.or_eq_true, includes_iff_infix, List.any_eq_true,
      Bool.false_eq_true]
    constructor
    · rintro ((h1 | h2) | h3)
      · exact ⟨by omega, Or.inl h1⟩
      · exact ⟨by omega, Or.inr (Or.inl h2)⟩
      · exact ⟨by omega, Or.inr (Or.inr h3)⟩
    · rintro ⟨_, h1 | h2 | h3⟩
      · exact Or.inl (Or.inl h1)
      · exact Or.inl (Or.inr h2)
      · exact Or.inr h3

/-- C1: for a non-empty trimmed query that is not a command, `handleSearch` hands
`renderSearchResults` exactly the corpus filtered, in corpus order, by: clearance at most the
session's, and the lower-cased query contained in the lower-cased id, a lower-cased keyword
or the lower-cased title.  No document above the session's clearance is in the list. -/
theorem search_results_are_filtered_corpus (env : Env) (s : GameState) (value : JSString)
    (hq : trim value ≠ []) (hcmd : NotCommand env.host (trim value)) :
    handleSearch env s enterKey value =
        (s, renderSearchResults
          (env.data.documents.filter fun doc =>
            decide (SpecMatches env.host s.currentSCL (trim value) doc))
          (trim value)) ∧
      ∀ doc ∈ env.data.documents.filter fun doc =>
          decide (SpecMatches env.host s.currentSCL (trim value) doc),
        ¬ doc.scl > s.currentSCL := by
  obtain ⟨h1, h2, h3, h4⟩ := hcmd
  constructor
  · have hf : (searchFilter env.host s.currentSCL (env.host.toLowerCase (trim value))) =
        fun doc => decide (SpecMatches env.host s.currentSCL (trim value) doc) := by
      funext doc
      rw [Bool.eq_iff_iff, searchFilter_iff]
      simp
    unfold handleSearch
    rw [if_pos rfl]
    simp only [hq, h1, h2, h3, h4, hf, if_false, Bool.false_eq_true, or_self]
  · intro doc hdoc
    have := (List.mem_filter.mp hdoc).2
    simp only [decide_eq_true_eq] at this
    have := this.1
    omega

/-- Witness of C1: the intern's search for ` sys-001 ` returns the clearance-1 document
and not the clearance-4 one, whose id contains the query too. -/
theorem search_results_are_filtered_corpus_witness :
    trim " sys-001 ".toList ≠ [] ∧ NotCommand sampleEnv.host (trim " sys-001 ".toList) ∧
      handleSearch sampleEnv (sessionOf intern 0) enterKey " sys-001 ".toList =
        (sessionOf intern 0, [Effect.showResults [sysDoc]]) ∧
      includes (asciiHost.toLowerCase sealedDoc.id) "sys-001".toList = true :=
  ⟨by decide, by unfold NotCommand; decide,
    (search_results_are_filtered_corpus sampleEnv (sessionOf intern 0) " sys-001 ".toList
      (by decide) (by unfold NotCommand; decide)).1.trans (by decide), by decide⟩

/-! ## Opening a document: the guard and the exposure counter (C2, C3) -/

theorem alert_not_mem_applyGlitchEffects (s : GameState) :
    Effect.alertAccessDenied ∉ applyGlitchEffects s := by
  simp only [applyGlitchEffects]
  split_ifs <;> simp

/-- C2: `openDocument` on a document above the session's clearance is denied and changes
nothing: the state it returns is the state it was given (all six fields), and its only effect
is the denial alert, so no disturbance is activated.  On a document at or below the
session's clearance the open is not denied: no alert, and the document is shown. -/
theorem openDocument_denied_iff_above_clearance (env : Env) (rnd : Nat → JSString)
    (s : GameState) (doc : Document) :
    (doc.scl > s.currentSCL →
        openDocument env rnd s doc = (s, [Effect.alertAccessDenied])) ∧
      (doc.scl ≤ s.currentSCL →
        Effect.alertAccessDenied ∉ (openDocument env rnd s doc).2 ∧
          Effect.showDocument doc (parseDocumentContent env.host rnd doc.content) ∈
            (openDocument env rnd s doc).2) := by
  constructor
  · intro h
    simp [openDocument, h]
  · intro h
    have h' : ¬ doc.scl > s.currentSCL := by omega
    unfold openDocument
    rw [if_neg h']
    have := alert_not_mem_applyGlitchEffects
    split_ifs <;> simp [this]

/-- Witness of C2: the intern is denied the clearance-4 document and the session is as
before; the clearance-1 document is shown to him. -/
theorem openDocument_denied_iff_above_clearance_witness :
    sealedDoc.scl > (sessionOf intern 0).currentSCL ∧
      openDocument sampleEnv (constRnd []) (sessionOf intern 0) sealedDoc =
        (sessionOf intern 0, [Effect.alertAccessDenied]) ∧
      sysDoc.scl ≤ (sessionOf intern 0).currentSCL ∧
      Effect.alertAccessDenied ∉
        (openDocument sampleEnv (constRnd []) (sessionOf intern 0) sysDoc).2 :=
  ⟨by decide,
    (openDocument_denied_iff_above_clearance sampleEnv (constRnd []) (sessionOf intern 0)
      sealedDoc).1 (by decide),
    by decide,
    ((openDocument_denied_iff_above_clearance sampleEnv (constRnd []) (sessionOf intern 0)
      sysDoc).2 (by decide)).1⟩

/-- C3: a granted `openDocument` adds exactly 1 to `readDangerousDocs` when the document's
clearance is at least 3 and leaves it as it was below 3, for every state, so also when the
document's id is in `unlockedDocs` already; `sanity` is recomputed from the new count in
the first case and untouched in the second. -/
theorem openDocument_exposure_count (env : Env) (rnd : Nat → JSString) (s : GameState)
    (doc : Document) (h : doc.scl ≤ s.currentSCL) :
    (doc.scl ≥ 3 →
        (openDocument env rnd s doc).1.readDangerousDocs = s.readDangerousDocs + 1 ∧
          (openDocument env rnd s doc).1.sanity =
            max 0 (100 - ((s.readDangerousDocs + 1 : Nat) : Int) * 5)) ∧
      (doc.scl < 3 →
        (openDocument env rnd s doc).1.readDangerousDocs = s.readDangerousDocs ∧
          (openDocument env rnd s doc).1.sanity = s.sanity) := by
  have h' : ¬ doc.scl > s.currentSCL := by omega
  unfold openDocument
  rw [if_neg h']
  constructor
  · intro h3
    simp [h3]
  · intro h3
    have : ¬ doc.scl ≥ 3 := by omega
    simp [this]

/-- Witness of C3: from 2 dangerous reads, opening a clearance-3 document gives 3 and
sanity 85; opening a clearance-5 document after it gives 4 and sanity 80; opening the
clearance-3 document once more, its id now in `unlockedDocs`, counts again. -/
theorem openDocument_exposure_count_witness :
    incidentDoc.scl ≤ (sessionOf director 2).currentSCL ∧
      (openDocument sampleEnv (constRnd []) (sessionOf director 2) incidentDoc).1.readDangerousDocs
        = 3 ∧
      (openDocument sampleEnv (constRnd []) (sessionOf director 2) incidentDoc).1.sanity = 85 ∧
      (openDocument sampleEnv (constRnd [])
        (openDocument sampleEnv (constRnd []) (sessionOf director 2) incidentDoc).1
        coreDoc).1.readDangerousDocs = 4 ∧
      (openDocument sampleEnv (constRnd [])
        (openDocument sampleEnv (constRnd []) (sessionOf director 2) incidentDoc).1
        coreDoc).1.sanity = 80 ∧
      (openDocument sampleEnv (constRnd [])
        (openDocument sampleEnv (constRnd []) (sessionOf director 2) incidentDoc).1
        incidentDoc).1.readDangerousDocs = 4 :=
  ⟨by decide,
    ((openDocument_exposure_count sampleEnv (constRnd []) (sessionOf director 2) incidentDoc
      (by decide)).1 (by decide)).1,
    by decide, by decide, by decide, by decide⟩

/-! ## The sanity formula along every run (C4) -/

theorem handleLogin_state (env : Env) (s : GameState) (key value : JSString) :
    (handleLogin env s key value).1 = s := by
  unfold handleLogin
  split_ifs <;> rfl

theorem reload_not_mem_handleLogin (env : Env) (s : GameState) (key value : JSString) :
    Effect.reload ∉ (handleLogin env s key value).2 := by
  unfold handleLogin
  split_ifs <;> simp

theorem handleCommandLogin_state (env : Env) (s : GameState) (inputId : JSString) :
    (handleCommandLogin env s inputId).1 = s := by
  unfold handleCommandLogin
  split <;> rfl

theorem reload_not_mem_handleCommandLogin (env : Env) (s : GameState) (inputId : JSString) :
    Effect.reload ∉ (handleCommandLogin env s inputId).2 := by
  unfold handleCommandLogin
  split
  · simp
  · split_ifs <;> simp

theorem handleSearch_state (env : Env) (s : GameState) (key value : JSString) :
    (handleSearch env s key value).1 = s := by
  unfold handleSearch
  simp only []
  split_ifs <;> first | rfl | exact handleCommandLogin_state _ _ _

theorem reload_not_mem_renderSearchResults (results : List Document) (query : JSString) :
    Effect.reload ∉ renderSearchResults results query := by
  unfold renderSearchResults
  split_ifs <;> simp

theorem reload_not_mem_handleSearch (env : Env) (s : GameState) (key value : JSString)
    (h : isLogout env.host key value = false) :
    Effect.reload ∉ (handleSearch env s key value).2 := by
  unfold handleSearch
  simp only []
  split_ifs with h1 h2 h3 h4 h5
  · simp
  · simp [reload_not_mem_handleCommandLogin]
  · exfalso
    simp only [isLogout, h1, beq_self_eq_true, Bool.true_and, Bool.and_eq_false_imp, bne_iff_ne,
      ne_eq, h2, not_false_eq_true, Bool.or_eq_false_iff, beq_eq_false_iff_ne, true_implies] at h
    rcases h4 with h4 | h4
    · exact h.1 h4
    · exact h.2 h4
  · simp
  · exact reload_not_mem_renderSearchResults _ _
  · simp

theorem reload_not_mem_applyGlitchEffects (s : GameState) :
    Effect.reload ∉ applyGlitchEffects s := by
  simp only [applyGlitchEffects]
  split_ifs <;> simp

theorem reload_not_mem_openDocument (env : Env) (rnd : Nat → JSString) (s : GameState)
    (doc : Document) : Effect.reload ∉ (openDocument env rnd s doc).2 := by
  unfold openDocument
  have := reload_not_mem_applyGlitchEffects
  split_ifs <;> simp [this]

theorem loginSuccess_exposure (s : GameState) (id : JSString) (user : User) :
    (loginSuccess s id user).1.sanity = s.sanity ∧
      (loginSuccess s id user).1.readDangerousDocs = s.readDangerousDocs := by
  unfold loginSuccess
  simp only []
  split_ifs <;> exact ⟨rfl, rfl⟩

theorem reload_not_mem_loginSuccess (s : GameState) (id : JSString) (user : User) :
    Effect.reload ∉ (loginSuccess s id user).2 := by
  unfold loginSuccess
  simp only []
  split_ifs <;> simp

theorem runDeferred_exposure (env : Env) (s : GameState) (d : Deferred) :
    (runDeferred env s d).1.sanity = s.sanity ∧
      (runDeferred env s d).1.readDangerousDocs = s.readDangerousDocs := by
  cases d with
  | loginLookup inputId =>
    simp only [runDeferred, loginCallback]
    split
    · exact loginSuccess_exposure _ _ _
    · exact ⟨rfl, rfl⟩
  | commandLogin user => exact ⟨rfl, rfl⟩
  | showTutorial => exact ⟨rfl, rfl⟩

theorem reload_not_mem_runDeferred (env : Env) (s : GameState) (d : Deferred) :
    Effect.reload ∉ (runDeferred env s d).2 := by
  cases d with
  | loginLookup inputId =>
    simp only [runDeferred, loginCallback]
    split
    · exact reload_not_mem_loginSuccess _ _ _
    · simp
  | commandLogin user =>
    simp only [runDeferred, commandLoginCallback]
    split_ifs <;> simp
  | showTutorial => simp [runDeferred]

theorem openDocument_exposure (env : Env) (rnd : Nat → JSString) (s : GameState)
    (doc : Document) (h : SanityFormula s) :
    SanityFormula (openDocument env rnd s doc).1 ∧
      s.readDangerousDocs ≤ (openDocument env rnd s doc).1.readDangerousDocs := by
  unfold openDocument
  simp only []
  split_ifs
  · exact ⟨h, le_refl _⟩
  · refine ⟨?_, Nat.le_succ _⟩
    simp only [SanityFormula]
    rw [mul_comm]
  · exact ⟨h, le_refl _⟩

theorem after_state (w : World) (r : GameState × List Effect) (h : Effect.reload ∉ r.2) :
    (w.after r).state = r.1 := by
  simp [World.after, h]

theorem sanityFormula_init : SanityFormula GameState.init := by
  simp [SanityFormula, GameState.init]

theorem sanityFormula_of_exposure {s t : GameState} (h : SanityFormula s)
    (e : t.sanity = s.sanity ∧ t.readDangerousDocs = s.readDangerousDocs) : SanityFormula t := by
  unfold SanityFormula at *
  rw [e.1, e.2, h]

theorem step_sanityFormula (env : Env) (w : World) (a : Action) (h : SanityFormula w.state) :
    SanityFormula (step env w a).state := by
  cases a with
  | loginKeypress key value =>
    simp only [step]
    rw [after_state _ _ (reload_not_mem_handleLogin _ _ _ _), handleLogin_state]
    exact h
  | searchKeypress key value =>
    simp only [step, World.after]
    split_ifs
    · exact sanityFormula_init
    · simp only [handleSearch_state]
      exact h
  | openDocument doc rnd =>
    simp only [step]
    rw [after_state _ _ (reload_not_mem_openDocument _ _ _ _)]
    exact (openDocument_exposure env rnd w.state doc h).1
  | timer i =>
    simp only [step]
    split
    · exact h
    · rw [after_state _ _ (reload_not_mem_runDeferred _ _ _)]
      exact sanityFormula_of_exposure h (runDeferred_exposure _ _ _)

theorem step_exposure_mono (env : Env) (w : World) (a : Action)
    (hr : a.reloads env.host = false) (h : SanityFormula w.state) :
    w.state.readDangerousDocs ≤ (step env w a).state.readDangerousDocs := by
  cases a with
  | loginKeypress key value =>
    simp only [step]
    rw [after_state _ _ (reload_not_mem_handleLogin _ _ _ _), handleLogin_state]
  | searchKeypress key value =>
    simp only [step]
    rw [after_state _ _ (reload_not_mem_handleSearch _ _ _ _ hr), handleSearch_state]
  | openDocument doc rnd =>
    simp only [step]
    rw [after_state _ _ (reload_not_mem_openDocument _ _ _ _)]
    exact (openDocument_exposure env rnd w.state doc h).2
  | timer i =>
    simp only [step]
    split
    · exact le_refl _
    · rw [after_state _ _ (reload_not_mem_runDeferred _ _ _)]
      exact le_of_eq (runDeferred_exposure _ _ _).2.symm

theorem run_sanityFormula (env : Env) (actions : List Action) (w : World)
    (h : SanityFormula w.state) : SanityFormula (run env w actions).state := by
  induction actions generalizing w with
  | nil => exact h
  | cons a rest ih => exact ih _ (step_sanityFormula env w a h)

theorem run_exposure_mono (env : Env) (actions : List Action) (w : World)
    (hr : ∀ a ∈ actions, a.reloads env.host = false) (h : SanityFormula w.state) :
    w.state.readDangerousDocs ≤ (run env w actions).state.readDangerousDocs := by
  induction actions generalizing w with
  | nil => exact le_refl _
  | cons a rest ih =>
    have h1 := step_exposure_mono env w a (hr a (List.mem_cons_self _ _)) h
    have h2 := ih (step env w a) (fun b hb => hr b (List.mem_cons_of_mem _ hb))
      (step_sanityFormula env w a h)
    exact le_trans h1 h2

/-- C4: along every finite sequence of login keypresses, search-box inputs other than
`LOGOUT` / `EXIT` (searches, `LOGIN` commands, `HELP`), `openDocument` calls and timer
callbacks, started from the page as loaded: after any prefix `before` and any continuation
`later`, `sanity = max(0, 100 - 5 * readDangerousDocs)`, so `0 ≤ sanity ≤ 100`, and
`readDangerousDocs` after `later` is at least what it was before it. -/
theorem sanity_formula_invariant (env : Env) (before later : List Action)
    (h : ∀ a ∈ before ++ later, a.reloads env.host = false) :
    (run env (run env World.init before) later).state.sanity =
        max 0 (100 - 5 * ((run env (run env World.init before) later).state.readDangerousDocs
          : Int)) ∧
      0 ≤ (run env (run env World.init before) later).state.sanity ∧
      (run env (run env World.init before) later).state.sanity ≤ 100 ∧
      (run env World.init before).state.readDangerousDocs ≤
        (run env (run env World.init before) later).state.readDangerousDocs := by
  have h0 := run_sanityFormula env before World.init sanityFormula_init
  have h1 := run_sanityFormula env later _ h0
  have h2 := run_exposure_mono env later (run env World.init before)
    (fun a ha => h a (List.mem_append_right _ ha)) h0
  refine ⟨h1, ?_, ?_, h2⟩
  · rw [h1]
    exact le_max_left _ _
  · rw [h1]
    apply max_le <;> omega

set_option maxRecDepth 100000 in
/-- Witness of C4: the director logs in, reads the clearance-3 document twenty-one times,
switches to the intern and is denied a document: the count ends at 21 and sanity at the
floor 0, where `100 - 5 * 21` is negative. -/
theorem sanity_formula_invariant_witness :
    (∀ a ∈ directorLogsIn ++ manyReads, a.reloads sampleEnv.host = false) ∧
      (run sampleEnv (run sampleEnv World.init directorLogsIn) manyReads).state.sanity =
        max 0 (100 - 5 * ((run sampleEnv (run sampleEnv World.init directorLogsIn)
          manyReads).state.readDangerousDocs : Int)) ∧
      (run sampleEnv (run sampleEnv World.init directorLogsIn) manyReads).state.sanity = 0 ∧
      (run sampleEnv (run sampleEnv World.init directorLogsIn)
        manyReads).state.readDangerousDocs = 21 ∧
      (run sampleEnv (run sampleEnv World.init directorLogsIn) manyReads).state.currentSCL = 1 ∧
      (run sampleEnv World.init directorLogsIn).state.readDangerousDocs = 0 :=
  ⟨by decide,
    (sanity_formula_invariant sampleEnv directorLogsIn manyReads (by decide)).1,
    by decide, by decide, by decide, by decide⟩

/-! ## Account switch (C5, C6) -/

set_option maxRecDepth 100000 in
/-- C5, at the failing input: the account `ECHO-04` has its `infected` flag set.  Logged in
at the login screen, the session is bound to it, `currentSCL` is its clearance 4 and
`applyInfectedEffects` is called.  Switched to with the command `LOGIN ECHO-04`, the session
is bound to it and `currentSCL` is 4 all the same, but `applyInfectedEffects` is never
called. -/
theorem command_login_skips_infected_effects :
    carrier.infected = true ∧
      (run sampleEnv World.init carrierLogsIn).state.currentUser = some carrier ∧
      (run sampleEnv World.init carrierLogsIn).state.currentSCL = 4 ∧
      Effect.applyInfectedEffects ∈ (run sampleEnv World.init carrierLogsIn).trace ∧
      (run sampleEnv World.init switchToCarrier).state.currentUser = some carrier ∧
      (run sampleEnv World.init switchToCarrier).state.currentSCL = 4 ∧
      Effect.applyInfectedEffects ∉ (run sampleEnv World.init switchToCarrier).trace := by
  refine ⟨by decide, by decide, by decide, by decide, by decide, by decide, by decide⟩

theorem findUser_eq_orElse (d : GameData) (inputId : JSString) :
    findUser d inputId =
      ((d.users inputId).orElse fun _ =>
        (lookupIn d.hiddenUsers inputId).orElse fun _ => lookupIn d.secretUsers inputId) := by
  unfold findUser lookupIn
  cases d.users inputId with
  | some u => cases d.hiddenUsers <;> cases d.secretUsers <;> rfl
  | none =>
    cases d.hiddenUsers with
    | none => cases d.secretUsers <;> rfl
    | some hidden =>
      simp only [Option.bind]
      cases hidden inputId <;> cases d.secretUsers <;> rfl

/-- C6: an identifier that is a key of none of `users`, `hiddenUsers`, `secretUsers` is
answered with the unrecognized-identifier message on both paths, and `GameState` is returned
as it was: the login screen's deferred lookup shows the invalid-id message and clears the
box, the `LOGIN` command shows its error message (and plays the error sound) and schedules
nothing.  The lookup returns the entry of `users` if there is one, else that of `hiddenUsers`,
else that of `secretUsers`. -/
theorem unknown_identifier_changes_nothing (env : Env) (s : GameState) (inputId : JSString) :
    (env.data.users inputId = none → lookupIn env.data.hiddenUsers inputId = none →
        lookupIn env.data.secretUsers inputId = none →
        loginCallback env s inputId =
            (s, [Effect.loginMessage Message.invalidEmployee, Effect.clearLoginInput]) ∧
          handleCommandLogin env s inputId =
            (s, [Effect.systemMessage (Message.unrecognized inputId)]
              ++ (if env.audioReady then [Effect.playError] else []))) ∧
      (∀ u, env.data.users inputId = some u → findUser env.data inputId = some u) ∧
      (∀ u, env.data.users inputId = none → lookupIn env.data.hiddenUsers inputId = some u →
        findUser env.data inputId = some u) ∧
      (env.data.users inputId = none → lookupIn env.data.hiddenUsers inputId = none →
        findUser env.data inputId = lookupIn env.data.secretUsers inputId) := by
  refine ⟨?_, ?_, ?_, ?_⟩
  · intro h1 h2 h3
    have hf : findUser env.data inputId = none := by
      rw [findUser_eq_orElse, h1, h2, h3]; rfl
    simp [loginCallback, handleCommandLogin, hf]
  · intro u h1
    rw [findUser_eq_orElse, h1]; rfl
  · intro u h1 h2
    rw [findUser_eq_orElse, h1, h2]; rfl
  · intro h1 h2
    rw [findUser_eq_orElse, h1, h2]; rfl

set_option maxRecDepth 100000 in
/-- Witness of C6: `GHOST-00` is in no table.  Typed at the login screen or after `LOGIN`
in the director's session, the session stays the director's, at clearance 5. -/
theorem unknown_identifier_changes_nothing_witness :
    sampleData.users "GHOST-00".toList = none ∧
      loginCallback sampleEnv (sessionOf director 2) "GHOST-00".toList =
        (sessionOf director 2,
          [Effect.loginMessage Message.invalidEmployee, Effect.clearLoginInput]) ∧
      (run sampleEnv World.init
        (directorLogsIn ++ [Action.searchKeypress enterKey "login ghost-00".toList,
          Action.loginKeypress enterKey "ghost-00".toList, Action.timer 0])).state
        = (run sampleEnv World.init directorLogsIn).state ∧
      (run sampleEnv World.init directorLogsIn).state.currentSCL = 5 :=
  ⟨by decide,
    ((unknown_identifier_changes_nothing sampleEnv (sessionOf director 2) "GHOST-00".toList).1
      (by decide) (by decide) (by decide)).1,
    by decide, by decide⟩

/-! ## Disturbance activations (C7) -/

set_option maxRecDepth 100000 in
/-- C7 fails as stated: the director opens the clearance-3 document seven times.  The
mild activation is emitted by five of the calls (counts 3 to 7) and the moderate one, which
starts the recurring flash timer, by two (counts 6 and 7): the seventh open starts a second
timer while the first is running. -/
theorem flash_timer_started_again :
    (run sampleEnv World.init sevenReads).state.readDangerousDocs = 7 ∧
      (run sampleEnv World.init sevenReads).trace.count Effect.startFlashTimer = 2 ∧
      (run sampleEnv World.init sevenReads).trace.count Effect.hueRotate = 5 := by
  refine ⟨by decide, by decide, by decide⟩

/-- C7 as amended: a call of `openDocument` emits the activation of a threshold (3 mild, 6
moderate, 10 severe) exactly when it is granted, the document's clearance is at least 3 and
`readDangerousDocs`, which the call has just incremented, is at or above the threshold; it
emits each at most once.  So a threshold's activation is first emitted by the call in which
the count reaches it, and again by every later counted open. -/
theorem activation_emitted_iff_at_or_above_threshold (env : Env) (rnd : Nat → JSString)
    (s : GameState) (doc : Document) :
    (Effect.hueRotate ∈ (openDocument env rnd s doc).2 ↔
        doc.scl ≤ s.currentSCL ∧ 3 ≤ doc.scl ∧ 3 ≤ s.readDangerousDocs + 1) ∧
      (Effect.startFlashTimer ∈ (openDocument env rnd s doc).2 ↔
        doc.scl ≤ s.currentSCL ∧ 3 ≤ doc.scl ∧ 6 ≤ s.readDangerousDocs + 1) ∧
      (Effect.heavyGlitch ∈ (openDocument env rnd s doc).2 ↔
        doc.scl ≤ s.currentSCL ∧ 3 ≤ doc.scl ∧ 10 ≤ s.readDangerousDocs + 1) ∧
      (openDocument env rnd s doc).2.count Effect.hueRotate ≤ 1 ∧
      (openDocument env rnd s doc).2.count Effect.startFlashTimer ≤ 1 ∧
      (openDocument env rnd s doc).2.count Effect.heavyGlitch ≤ 1 := by
  unfold openDocument
  simp only [applyGlitchEffects]
  by_cases h1 : doc.scl > s.currentSCL
  · simp only [h1, if_true]
    refine ⟨?_, ?_, ?_, ?_, ?_, ?_⟩ <;> first | decide | (simp; omega)
  · by_cases h2 : doc.scl ≥ 3
    · simp only [h1, h2, if_true, if_false]
      refine ⟨?_, ?_, ?_, ?_, ?_, ?_⟩ <;> split_ifs <;> simp <;> omega
    · simp only [h1, h2, if_false]
      refine ⟨?_, ?_, ?_, ?_, ?_, ?_⟩ <;> simp

/-! ## Keyword highlighting and CJK keywords (C8, C10) -/

/-- C8, at the failing inputs: `共鸣` alone and `共鸣` between spaces are whole-word
occurrences of a listed keyword, and `parseDocumentContent` returns both bodies unchanged,
with no keyword span; the Latin keyword in the same places is wrapped, and so is `弥米尔`
when it stands inside a longer word, between `x` and `y`. -/
theorem cjk_keyword_alone_is_not_highlighted :
    hasWholeWord "共鸣".toList "共鸣".toList = true ∧
      parseDocumentContent asciiHost (constRnd []) "共鸣".toList = "共鸣".toList ∧
      hasWholeWord "共鸣".toList " 共鸣 ".toList = true ∧
      parseDocumentContent asciiHost (constRnd []) " 共鸣 ".toList = " 共鸣 ".toList ∧
      parseDocumentContent asciiHost (constRnd []) " Mimir ".toList =
        " ".toList ++ keywordSpan "Mimir".toList ++ " ".toList ∧
      hasWholeWord "弥米尔".toList "x弥米尔y".toList = false ∧
      parseDocumentContent asciiHost (constRnd []) "x弥米尔y".toList =
        "x".toList ++ keywordSpan "弥米尔".toList ++ "y".toList := by
  refine ⟨by decide, by decide, by decide, by decide, by decide, by decide, by decide⟩

/-- C10, at the failing input: the body `a共鸣b` holds none of the three tokens, no `[警告`,
no newline and no whole-word occurrence of any listed keyword, and `parseDocumentContent`
does not return it unchanged: it wraps `共鸣` in a keyword span. -/
theorem cjk_keyword_inside_word_is_rewritten :
    includes "a共鸣b".toList redactedToken = false ∧
      includes "a共鸣b".toList corruptedToken = false ∧
      includes "a共鸣b".toList glitchToken = false ∧
      includes "a共鸣b".toList warningOpen = false ∧
      '\n' ∉ "a共鸣b".toList ∧
      (∀ keyword ∈ keywords, hasWholeWord keyword "a共鸣b".toList = false) ∧
      parseDocumentContent asciiHost (constRnd []) "a共鸣b".toList =
        "a<span class=\"keyword-highlight\" title=\"点击搜索: 共鸣\">共鸣</span>b".toList ∧
      parseDocumentContent asciiHost (constRnd []) "a共鸣b".toList ≠ "a共鸣b".toList := by
  refine ⟨by decide, by decide, by decide, by decide, by decide, by decide, by decide,
    by decide⟩

/-! ## Later rules and the markup of earlier ones (C9) -/

theorem replaceAllAux_skip (m : Option Char → JSString → Option Nat)
    (rep : Nat → JSString → JSString) (n skip : Nat) (prev : Option Char) (c : Char)
    (rest : JSString) :
    replaceAllAux m rep n (skip + 1) prev (c :: rest) = replaceAllAux m rep n skip (some c) rest := by
  rw [replaceAllAux]

theorem replaceAllAux_of_match {m : Option Char → JSString → Option Nat}
    (rep : Nat → JSString → JSString) (n : Nat) {prev : Option Char} {c : Char}
    {rest : JSString} {len : Nat} (h : m prev (c :: rest) = some (len + 1)) :
    replaceAllAux m rep n 0 prev (c :: rest) =
      rep n ((c :: rest).take (len + 1)) ++ replaceAllAux m rep (n + 1) len (some c) rest := by
  rw [replaceAllAux, h]

theorem replaceAllAux_of_no_match {m : Option Char → JSString → Option Nat}
    (rep : Nat → JSString → JSString) (n : Nat) {prev : Option Char} {c : Char}
    {rest : JSString} (h : ∀ len, m prev (c :: rest) ≠ some (len + 1)) :
    replaceAllAux m rep n 0 prev (c :: rest) = c :: replaceAllAux m rep n 0 (some c) rest := by
  rw [replaceAllAux]
  split
  · rename_i len heq
    exact absurd heq (h len)
  · rfl

theorem replaceAllAux_index (m : Option Char → JSString → Option Nat)
    (r : JSString → JSString) (s : JSString) :
    ∀ (n n' skip : Nat) (prev : Option Char),
      replaceAllAux m (fun _ => r) n skip prev s = replaceAllAux m (fun _ => r) n' skip prev s := by
  induction s with
  | nil => intro n n' skip prev; cases skip <;> simp [replaceAllAux]
  | cons c rest ih =>
    intro n n' skip prev
    cases skip with
    | succ k => rw [replaceAllAux_skip, replaceAllAux_skip]; exact ih _ _ _ _
    | zero =>
      by_cases h : ∃ len, m prev (c :: rest) = some (len + 1)
      · obtain ⟨len, h⟩ := h
        rw [replaceAllAux_of_match _ _ h, replaceAllAux_of_match _ _ h, ih (n + 1) (n' + 1)]
      · have h' : ∀ len, m prev (c :: rest) ≠ some (len + 1) := fun len hl => h ⟨len, hl⟩
        rw [replaceAllAux_of_no_match _ _ h', replaceAllAux_of_no_match _ _ h', ih n n']

theorem replaceAllAux_fresh {m : Option Char → JSString → Option Nat} {x : Char}
    (hs : Separator m x) (rep : Nat → JSString → JSString) (n : Nat) (s : JSString) :
    replaceAllAux m rep n 0 (some x) s = replaceAllAux m rep n 0 none s := by
  cases s with
  | nil => rfl
  | cons c rest => simp only [replaceAllAux, hs.fresh]

theorem replaceAllAux_append_separator {m : Option Char → JSString → Option Nat} {x : Char}
    (hb : Bounded m) (hs : Separator m x) (r : JSString → JSString) (b : JSString)
    (a : JSString) :
    ∀ (skip : Nat) (prev : Option Char), skip ≤ a.length →
      replaceAllAux m (fun _ => r) 0 skip prev (a ++ x :: b) =
        replaceAllAux m (fun _ => r) 0 skip prev a ++ x :: replaceAllAux m (fun _ => r) 0 0 none b := by
  induction a with
  | nil =>
    intro skip prev hskip
    have h0 : skip = 0 := by simpa using hskip
    subst h0
    have hcut := hs.cut prev [] b
    simp only [List.nil_append] at hcut
    have hnone : ∀ len, m prev (x :: b) ≠ some (len + 1) := by
      intro len h
      rw [hcut] at h
      have := hb prev [] (len + 1) h
      simp at this
    rw [List.nil_append, replaceAllAux_of_no_match _ _ hnone, replaceAllAux_fresh hs]
    rfl
  | cons c rest ih =>
    intro skip prev hskip
    cases skip with
    | succ k =>
      rw [List.cons_append, replaceAllAux_skip, replaceAllAux_skip]
      exact ih k (some c) (by simpa using hskip)
    | zero =>
      have hcut := hs.cut prev (c :: rest) b
      rw [List.cons_append] at hcut
      rw [List.cons_append]
      by_cases h : ∃ len, m prev (c :: rest) = some (len + 1)
      · obtain ⟨len, h⟩ := h
        have hlen := hb prev (c :: rest) (len + 1) h
        simp only [List.length_cons, Nat.add_le_add_iff_right] at hlen
        rw [replaceAllAux_of_match _ _ (hcut.trans h), replaceAllAux_of_match _ _ h,
          replaceAllAux_index m r _ (0 + 1) 0, replaceAllAux_index m r rest (0 + 1) 0,
          ih len (some c) hlen]
        have ht : List.take (len + 1) (c :: (rest ++ x :: b)) = List.take (len + 1) (c :: rest) := by
          simp only [List.take_succ_cons]
          rw [List.take_append_of_le_length hlen]
        rw [ht, List.append_assoc]
      · have h' : ∀ len, m prev (c :: rest) ≠ some (len + 1) := fun len hl => h ⟨len, hl⟩
        have h'' : ∀ len, m prev (c :: (rest ++ x :: b)) ≠ some (len + 1) := by
          intro len; rw [hcut]; exact h' len
        rw [replaceAllAux_of_no_match _ _ h'', replaceAllAux_of_no_match _ _ h',
          ih 0 (some c) (Nat.zero_le _)]
        rfl

theorem replaceAll_append_separator {m : Option Char → JSString → Option Nat} {x : Char}
    (hb : Bounded m) (hs : Separator m x) (r : JSString → JSString) (a b : JSString) :
    replaceAll m (fun _ => r) (a ++ x :: b) =
      replaceAll m (fun _ => r) a ++ x :: replaceAll m (fun _ => r) b :=
  replaceAllAux_append_separator hb hs r b a 0 none (Nat.zero_le _)

theorem matchChars_length (keyword : JSString) :
    ∀ (prev : Option Char) (s : JSString), matchChars keyword prev s = true →
      keyword.length ≤ s.length := by
  induction keyword with
  | nil => intro prev s _; exact Nat.zero_le _
  | cons k ks ih =>
    intro prev s h
    cases s with
    | nil => simp [matchChars] at h
    | cons c cs =>
      simp only [matchChars, Bool.and_eq_true] at h
      have := ih (some c) cs h.2
      simp only [List.length_cons]
      omega

theorem matchKeyword_bounded (keyword : JSString) : Bounded (matchKeyword keyword) := by
  intro prev s len h
  unfold matchKeyword at h
  split_ifs at h with hc
  simp only [Option.some.injEq] at h
  simp only [Bool.and_eq_true] at hc
  rw [← h]
  exact matchChars_length keyword prev s hc.2

theorem wordBoundary_separator_head {x : Char} (hx : isWordChar x = false)
    (prev : Option Char) (a b : JSString) :
    wordBoundary prev (a ++ x :: b).head? = wordBoundary prev a.head? := by
  cases a with
  | nil => simp [wordBoundary, isWordAt, hx]
  | cons c cs => rfl

theorem matchChars_separator {keyword : JSString} {x : Char} (hx : isWordChar x = false)
    (hk : ∀ k ∈ keyword, canonicalize x ≠ canonicalize k) :
    ∀ (prev : Option Char) (a b : JSString),
      matchChars keyword prev (a ++ x :: b) = matchChars keyword prev a := by
  induction keyword with
  | nil =>
    intro prev a b
    simp only [matchChars]
    exact wordBoundary_separator_head hx prev a b
  | cons k ks ih =>
    intro prev a b
    cases a with
    | nil =>
      have : (canonicalize x == canonicalize k) = false := by
        simpa using hk k (List.mem_cons_self _ _)
      simp [matchChars, this]
    | cons c cs =>
      have e := ih (fun k' hk' => hk k' (List.mem_cons_of_mem _ hk')) (some c) cs b
      simp only [List.cons_append, matchChars]
      exact congrArg (fun t => canonicalize c == canonicalize k && t) e

theorem matchChars_fresh {x : Char} (hx : isWordChar x = false) (keyword : JSString)
    (s : JSString) : matchChars keyword (some x) s = matchChars keyword none s := by
  cases keyword with
  | nil => simp [matchChars, wordBoundary, isWordAt, hx]
  | cons k ks => cases s <;> simp [matchChars]

theorem matchKeyword_separator {keyword : JSString} {x : Char}
    (h : isSeparatorFor keyword x = true) : Separator (matchKeyword keyword) x := by
  simp only [isSeparatorFor, Bool.and_eq_true, Bool.not_eq_true', List.all_eq_true, bne_iff_ne,
    ne_eq] at h
  obtain ⟨hx, hk⟩ := h
  constructor
  · intro prev a b
    unfold matchKeyword
    rw [wordBoundary_separator_head hx, matchChars_separator hx hk]
  · intro s
    unfold matchKeyword
    rw [matchChars_fresh hx]
    simp [wordBoundary, isWordAt, hx]

theorem keywordRule_append_separator {keyword : JSString} {x : Char}
    (h : isSeparatorFor keyword x = true) (a b : JSString) :
    keywordRule keyword (a ++ x :: b) = keywordRule keyword a ++ x :: keywordRule keyword b :=
  replaceAll_append_separator (matchKeyword_bounded keyword) (matchKeyword_separator h) _ a b

theorem keywordRule_nil (keyword : JSString) : keywordRule keyword [] = [] := rfl

/-- A framed markup passes through the keyword's rule untouched, whatever surrounds it, and
what surrounds it is rewritten as it is on its own. -/
theorem keywordRule_framed {keyword markup : JSString} (h : framedFor keyword markup = true)
    (a b : JSString) :
    keywordRule keyword (a ++ markup ++ b) =
      keywordRule keyword a ++ markup ++ keywordRule keyword b := by
  unfold framedFor at h
  cases markup with
  | nil => simp at h
  | cons x rest =>
    simp only at h
    cases hr : rest.reverse with
    | nil => rw [hr] at h; simp at h
    | cons y mid =>
      rw [hr] at h
      simp only [Bool.and_eq_true, beq_iff_eq] at h
      obtain ⟨⟨hx, hy⟩, hmid⟩ := h
      have hrest : rest = mid.reverse ++ [y] := by
        have := congrArg List.reverse hr
        simpa using this
      rw [hrest]
      have e1 : a ++ x :: (mid.reverse ++ [y]) ++ b = a ++ x :: (mid.reverse ++ y :: b) := by
        simp
      rw [e1, keywordRule_append_separator hx, keywordRule_append_separator hy, hmid]
      simp

theorem keywordStage_cons (kw : JSString) (kws : List JSString) (s : JSString) :
    keywordStage (kw :: kws) s = keywordStage kws (keywordRule kw s) := rfl

theorem keywordStage_framed {kws : List JSString} {markup : JSString}
    (h : ∀ kw ∈ kws, framedFor kw markup = true) :
    ∀ a b : JSString, keywordStage kws (a ++ markup ++ b) =
      keywordStage kws a ++ markup ++ keywordStage kws b := by
  induction kws with
  | nil => intro a b; rfl
  | cons kw kws ih =>
    intro a b
    rw [keywordStage_cons, keywordStage_cons, keywordStage_cons,
      keywordRule_framed (h kw (List.mem_cons_self _ _)),
      ih (fun k hk => h k (List.mem_cons_of_mem _ hk))]

theorem keywordStage_framed_around {kws : List JSString} {front back : JSString}
    (hf : ∀ kw ∈ kws, framedFor kw front = true) (hb : ∀ kw ∈ kws, framedFor kw back = true) :
    ∀ a core b : JSString, keywordStage kws (a ++ front ++ core ++ back ++ b) =
      keywordStage kws a ++ front ++ keywordStage kws core ++ back ++ keywordStage kws b := by
  induction kws with
  | nil => intro a core b; rfl
  | cons kw kws ih =>
    intro a core b
    have h1 := hf kw (List.mem_cons_self _ _)
    have h2 := hb kw (List.mem_cons_self _ _)
    have e : keywordRule kw (a ++ front ++ core ++ back ++ b) =
        keywordRule kw a ++ front ++ keywordRule kw core ++ back ++ keywordRule kw b := by
      have e1 : a ++ front ++ core ++ back ++ b = a ++ front ++ (core ++ back ++ b) := by
        simp [List.append_assoc]
      rw [e1, keywordRule_framed h1, keywordRule_framed h2]
      simp [List.append_assoc]
    rw [keywordStage_cons, e, keywordStage_cons, keywordStage_cons, keywordStage_cons,
      ih (fun k hk => hf k (List.mem_cons_of_mem _ hk))
        (fun k hk => hb k (List.mem_cons_of_mem _ hk))]

theorem canonicalize_cases (c : Char) :
    canonicalize c = c ∨ ∃ n, 97 ≤ n ∧ n ≤ 122 ∧ c = Char.ofNat n := by
  unfold canonicalize Char.toUpper
  by_cases h : c.toNat ≥ 97 ∧ c.toNat ≤ 122
  · exact Or.inr ⟨c.toNat, h.1, h.2, (Char.ofNat_toNat c).symm⟩
  · left; simp [h]

theorem isWordChar_canonicalize (c : Char) : isWordChar (canonicalize c) = isWordChar c := by
  rcases canonicalize_cases c with h | ⟨n, h1, h2, rfl⟩
  · rw [h]
  · interval_cases n <;> rfl

theorem canonicalize_idem (c : Char) : canonicalize (canonicalize c) = canonicalize c := by
  rcases canonicalize_cases c with h | ⟨n, h1, h2, rfl⟩
  · rw [h, h]
  · interval_cases n <;> rfl

theorem isWordAt_map (o : Option Char) : isWordAt (o.map canonicalize) = isWordAt o := by
  cases o with
  | none => rfl
  | some c => exact isWordChar_canonicalize c

theorem wordBoundary_map (prev : Option Char) (s : JSString) :
    wordBoundary (prev.map canonicalize) (s.map canonicalize).head? = wordBoundary prev s.head? := by
  unfold wordBoundary
  rw [isWordAt_map]
  cases s with
  | nil => rfl
  | cons c cs =>
    simp only [List.map_cons, List.head?_cons, isWordAt, isWordChar_canonicalize]

theorem matchChars_map (keyword : JSString) :
    ∀ (prev : Option Char) (s : JSString),
      matchChars keyword (prev.map canonicalize) (s.map canonicalize) =
        matchChars keyword prev s := by
  induction keyword with
  | nil => intro prev s; simp only [matchChars]; exact wordBoundary_map prev s
  | cons k ks ih =>
    intro prev s
    cases s with
    | nil => rfl
    | cons c cs =>
      have e := ih (some c) cs
      simp only [Option.map_some'] at e
      simp only [List.map_cons, matchChars, canonicalize_idem, e]

theorem matchKeyword_map (keyword : JSString) (prev : Option Char) (s : JSString) :
    matchKeyword keyword (prev.map canonicalize) (s.map canonicalize) =
      matchKeyword keyword prev s := by
  unfold matchKeyword
  rw [wordBoundary_map, matchChars_map]

theorem noMatchFrom_map (keyword : JSString) (s : JSString) :
    ∀ prev : Option Char,
      noMatchFrom (matchKeyword keyword) (prev.map canonicalize) (s.map canonicalize) =
        noMatchFrom (matchKeyword keyword) prev s := by
  induction s with
  | nil => intro prev; rfl
  | cons c cs ih =>
    intro prev
    have e := ih (some c)
    have e2 := matchKeyword_map keyword prev (c :: cs)
    simp only [Option.map_some'] at e
    simp only [List.map_cons] at e2
    simp only [List.map_cons, noMatchFrom, e, e2]

theorem replaceAllAux_of_noMatch {m : Option Char → JSString → Option Nat}
    (rep : Nat → JSString → JSString) (n : Nat) (s : JSString) :
    ∀ prev : Option Char, noMatchFrom m prev s = true →
      replaceAllAux m rep n 0 prev s = s := by
  induction s with
  | nil => intro prev _; rfl
  | cons c cs ih =>
    intro prev h
    simp only [noMatchFrom, Bool.and_eq_true, Option.isNone_iff_eq_none] at h
    rw [replaceAllAux_of_no_match rep n (by intro len; rw [h.1]; exact Option.noConfusion),
      ih (some c) h.2]

/-- The keyword's rule leaves a text alone when it matches nowhere in the text's case
folding. -/
theorem keywordRule_of_noMatch {keyword : JSString} {s : JSString}
    (h : noMatchFrom (matchKeyword keyword) none (s.map canonicalize) = true) :
    keywordRule keyword s = s := by
  have := noMatchFrom_map keyword s none
  simp only [Option.map_none'] at this
  exact replaceAllAux_of_noMatch _ 0 s none (this ▸ h)

theorem keywordStage_keywordSpan {kws : List JSString} {m : JSString}
    (hO : ∀ kw ∈ kws, framedFor kw keywordOpen = true)
    (hM : ∀ kw ∈ kws, framedFor kw keywordMid = true)
    (hC : ∀ kw ∈ kws, framedFor kw keywordClose = true)
    (hm : ∀ kw ∈ kws, keywordRule kw m = m) :
    ∀ a b : JSString, keywordStage kws (a ++ keywordSpan m ++ b) =
      keywordStage kws a ++ keywordSpan m ++ keywordStage kws b := by
  induction kws with
  | nil => intro a b; rfl
  | cons kw kws ih =>
    intro a b
    have h1 := hO kw (List.mem_cons_self _ _)
    have h2 := hM kw (List.mem_cons_self _ _)
    have h3 := hC kw (List.mem_cons_self _ _)
    have h4 := hm kw (List.mem_cons_self _ _)
    have e : keywordRule kw (a ++ keywordSpan m ++ b) =
        keywordRule kw a ++ keywordSpan m ++ keywordRule kw b := by
      have e1 : a ++ keywordSpan m ++ b =
          a ++ keywordOpen ++ (m ++ keywordMid ++ (m ++ keywordClose ++ b)) := by
        simp [keywordSpan, List.append_assoc]
      rw [e1, keywordRule_framed h1, keywordRule_framed h2, keywordRule_framed h3, h4]
      simp [keywordSpan, List.append_assoc]
    rw [keywordStage_cons, e, keywordStage_cons, keywordStage_cons,
      ih (fun k hk => hO k (List.mem_cons_of_mem _ hk))
        (fun k hk => hM k (List.mem_cons_of_mem _ hk))
        (fun k hk => hC k (List.mem_cons_of_mem _ hk))
        (fun k hk => hm k (List.mem_cons_of_mem _ hk))]

theorem matchWarning_of_noWarningOpen (prev : Option Char) (c : Char) (rest b : JSString)
    (h : noWarningOpen (c :: rest) = true) : matchWarning prev (c :: (rest ++ b)) = none := by
  simp only [noWarningOpen, Bool.and_eq_true, Bool.or_eq_true, bne_iff_ne, ne_eq] at h
  unfold matchWarning warningOpen
  have hp : List.isPrefixOf "[警告".toList (c :: (rest ++ b)) = false := by
    rcases h.1 with hc | hd
    · have : ('[' == c) = false := by simpa using fun e => hc e.symm
      show List.isPrefixOf ['[', '警', '告'] (c :: (rest ++ b)) = false
      simp [List.isPrefixOf, this]
    · cases rest with
      | nil => simp at hd
      | cons d rest' =>
        have hd' : d ≠ '警' := by simpa using hd
        have : ('警' == d) = false := by simpa using fun e => hd' e.symm
        show List.isPrefixOf ['[', '警', '告'] (c :: d :: (rest' ++ b)) = false
        simp [List.isPrefixOf, this]
  rw [hp]
  rfl

theorem replaceAllAux_warning_prev (rep : Nat → JSString → JSString) (n : Nat)
    (prev prev' : Option Char) (s : JSString) :
    replaceAllAux matchWarning rep n 0 prev s = replaceAllAux matchWarning rep n 0 prev' s := by
  cases s with
  | nil => rfl
  | cons c rest => rw [replaceAllAux, replaceAllAux]; rfl

theorem replaceAllAux_noWarningOpen (rep : Nat → JSString → JSString) (n : Nat) (b : JSString)
    (x : JSString) :
    ∀ prev : Option Char, noWarningOpen x = true →
      replaceAllAux matchWarning rep n 0 prev (x ++ b) =
        x ++ replaceAllAux matchWarning rep n 0 none b := by
  induction x with
  | nil => intro prev _; exact replaceAllAux_warning_prev rep n prev none b
  | cons c rest ih =>
    intro prev h
    have hm := matchWarning_of_noWarningOpen prev c rest b h
    have hrest : noWarningOpen rest = true := by
      simp only [noWarningOpen, Bool.and_eq_true] at h
      exact h.2
    rw [List.cons_append,
      replaceAllAux_of_no_match rep n (by intro len; rw [hm]; exact Option.noConfusion),
      ih (some c) hrest]
    rfl

/-- The warning rule copies a text in which `[警告` cannot begin, and goes on behind it. -/
theorem warningRule_of_noWarningOpen {x : JSString} (h : noWarningOpen x = true) (b : JSString) :
    warningRule (x ++ b) = x ++ warningRule b :=
  replaceAllAux_noWarningOpen _ 0 b x none h

theorem noWarningOpen_of_not_mem (m : JSString) (h : '[' ∉ m) : noWarningOpen m = true := by
  induction m with
  | nil => rfl
  | cons c rest ih =>
    simp only [List.mem_cons, not_or] at h
    simp only [noWarningOpen, Bool.and_eq_true, Bool.or_eq_true, bne_iff_ne, ne_eq]
    exact ⟨Or.inl fun e => h.1 e.symm, ih h.2⟩

theorem noWarningOpen_append (x y : JSString) (hx : noWarningOpen x = true)
    (hy : noWarningOpen y = true) : noWarningOpen (x ++ y) = true := by
  induction x with
  | nil => exact hy
  | cons c rest ih =>
    simp only [noWarningOpen, Bool.and_eq_true, Bool.or_eq_true, bne_iff_ne, ne_eq] at hx
    simp only [List.cons_append, noWarningOpen, Bool.and_eq_true, Bool.or_eq_true, bne_iff_ne,
      ne_eq]
    refine ⟨?_, ih hx.2⟩
    rcases hx.1 with hc | hd
    · exact Or.inl hc
    · cases rest with
      | nil => simp at hd
      | cons d rest' => exact Or.inr hd

set_option maxRecDepth 100000 in
theorem framed_spans :
    ∀ kw ∈ keywords, framedFor kw redactedSpan = true ∧ framedFor kw corruptedSpan = true ∧
      framedFor kw glitchOpen = true ∧ framedFor kw glitchClose = true := by
  decide

set_option maxRecDepth 100000 in
theorem framed_keywordSpan :
    ∀ k ∈ keywords, ∀ kw ∈ roundsAfter k,
      framedFor kw keywordOpen = true ∧ framedFor kw keywordMid = true ∧
        framedFor kw keywordClose = true ∧
        noMatchFrom (matchKeyword kw) none (k.map canonicalize) = true := by
  decide

set_option maxRecDepth 100000 in
theorem noWarningOpen_spans :
    noWarningOpen redactedSpan = true ∧ noWarningOpen corruptedSpan = true ∧
      noWarningOpen glitchOpen = true ∧ noWarningOpen glitchClose = true ∧
      noWarningOpen keywordOpen = true ∧ noWarningOpen keywordMid = true ∧
      noWarningOpen keywordClose = true := by
  decide

/-- C9 as amended: whatever stands before (`a`) and after (`b`),

* the keyword rounds leave a redacted span and a corrupted span as they are and rewrite `a`
  and `b` as they do on their own;
* they leave the fixed wrapper of a glitch span as it is and rewrite its core as they rewrite
  the core on its own, so the core is wrapped exactly when it holds a keyword match itself;
* the rounds after the round of a keyword `k` leave a keyword span emitted for `k` as it is,
  whatever the case of the matched text `m`;
* no match of the warning rule begins inside a redacted, corrupted, glitch or keyword span (a
  core or matched text without `[`): the rule copies the span and goes on behind it.

Nothing is said of where a warning match that began before a span ends. -/
theorem later_rules_leave_earlier_markup (a b : JSString) :
    keywordStage keywords (a ++ redactedSpan ++ b) =
        keywordStage keywords a ++ redactedSpan ++ keywordStage keywords b ∧
      keywordStage keywords (a ++ corruptedSpan ++ b) =
        keywordStage keywords a ++ corruptedSpan ++ keywordStage keywords b ∧
      (∀ core, keywordStage keywords (a ++ glitchOpen ++ core ++ glitchClose ++ b) =
        keywordStage keywords a ++ glitchOpen ++ keywordStage keywords core ++ glitchClose
          ++ keywordStage keywords b) ∧
      (∀ k ∈ keywords, ∀ m, m.map canonicalize = k.map canonicalize →
        keywordStage (roundsAfter k) (a ++ keywordSpan m ++ b) =
          keywordStage (roundsAfter k) a ++ keywordSpan m ++ keywordStage (roundsAfter k) b) ∧
      warningRule (redactedSpan ++ b) = redactedSpan ++ warningRule b ∧
      warningRule (corruptedSpan ++ b) = corruptedSpan ++ warningRule b ∧
      (∀ core, '[' ∉ core →
        warningRule (glitchOpen ++ core ++ glitchClose ++ b) =
          glitchOpen ++ core ++ glitchClose ++ warningRule b) ∧
      (∀ m, '[' ∉ m → warningRule (keywordSpan m ++ b) = keywordSpan m ++ warningRule b) := by
  have hw := noWarningOpen_spans
  refine ⟨?_, ?_, ?_, ?_, ?_, ?_, ?_, ?_⟩
  · exact keywordStage_framed (fun kw hk => (framed_spans kw hk).1) a b
  · exact keywordStage_framed (fun kw hk => (framed_spans kw hk).2.1) a b
  · intro core
    exact keywordStage_framed_around (fun kw hk => (framed_spans kw hk).2.2.1)
      (fun kw hk => (framed_spans kw hk).2.2.2) a core b
  · intro k hk m hm
    refine keywordStage_keywordSpan (fun kw hkw => (framed_keywordSpan k hk kw hkw).1)
      (fun kw hkw => (framed_keywordSpan k hk kw hkw).2.1)
      (fun kw hkw => (framed_keywordSpan k hk kw hkw).2.2.1) ?_ a b
    intro kw hkw
    apply keywordRule_of_noMatch
    rw [hm]
    exact (framed_keywordSpan k hk kw hkw).2.2.2
  · exact warningRule_of_noWarningOpen hw.1 b
  · exact warningRule_of_noWarningOpen hw.2.1 b
  · intro core hcore
    exact warningRule_of_noWarningOpen
      (noWarningOpen_append _ _
        (noWarningOpen_append _ _ hw.2.2.1 (noWarningOpen_of_not_mem core hcore)) hw.2.2.2.1) b
  · intro m hm
    have hm' := noWarningOpen_of_not_mem m hm
    exact warningRule_of_noWarningOpen
      (noWarningOpen_append _ _
        (noWarningOpen_append _ _
          (noWarningOpen_append _ _ (noWarningOpen_append _ _ hw.2.2.2.2.1 hm') hw.2.2.2.2.2.1)
          hm') hw.2.2.2.2.2.2) b

set_option maxRecDepth 100000 in
/-- C9 fails as stated, in both halves.  With the random value `0.thorne9x` rule 2 emits a
glitch span whose core is `THORNE`, and the keyword rule wraps that core inside the glitch
span.  In the body `[警告[数据删除]` the warning regex, tried at the body's `[警告`, matches 47
characters: it runs over the opening tag of the redacted span rule 1 emitted and ends at the
`]` inside that span, so the warning span swallows the tag and cuts the redacted span. -/
theorem later_rules_rematch_earlier_output :
    glitchRule asciiHost (constRnd "0.thorne9x".toList) "[乱码]".toList =
        glitchOpen ++ "THORNE".toList ++ glitchClose ∧
      parseDocumentContent asciiHost (constRnd "0.thorne9x".toList) "[乱码]".toList =
        glitchOpen ++ keywordSpan "THORNE".toList ++ glitchClose ∧
      redactRule "[警告[数据删除]".toList = "[警告".toList ++ redactedSpan ∧
      matchWarning none ("[警告".toList ++ redactedSpan) = some 47 ∧
      parseDocumentContent asciiHost (constRnd []) "[警告[数据删除]".toList =
        ("<span class=\"warning-text\">⚠ <span class=\"redacted\" title=\"需要更高权限\">[数据删除"
          ++ "</span></span>").toList := by
  refine ⟨by decide, by decide, by decide, by decide, by decide⟩

set_option maxRecDepth 100000 in
/-- Witness of C9 as amended: a body with a keyword, a redacted token, a lower-case keyword, a
glitch token and a line break; the spans of rules 1 and 2 come out whole, between the keyword
spans. -/
theorem later_rules_leave_earlier_markup_witness :
    keywordStage keywords ("MIMIR ".toList ++ redactedSpan ++ " b4".toList) =
        keywordStage keywords "MIMIR ".toList ++ redactedSpan ++ keywordStage keywords " b4".toList ∧
      parseDocumentContent asciiHost (constRnd "0.4fzyo82mvyr".toList)
          "MIMIR [数据删除] b4 [乱码]\n".toList =
        keywordSpan "MIMIR".toList ++ " ".toList ++ redactedSpan ++ " ".toList
          ++ keywordSpan "b4".toList ++ " ".toList
          ++ (glitchOpen ++ "4FZYO8".toList ++ glitchClose) ++ lineBreak :=
  ⟨(later_rules_leave_earlier_markup "MIMIR ".toList " b4".toList).1, by decide⟩

/-! ## Bodies with nothing to rewrite -/

theorem noMatchFrom_literal (pat : JSString) (s : JSString) (h : ¬ pat <:+: s) :
    ∀ prev : Option Char, noMatchFrom (matchLiteral pat) prev s = true := by
  induction s with
  | nil => intro prev; rfl
  | cons c cs ih =>
    intro prev
    have h1 : pat.isPrefixOf (c :: cs) = false := by
      rw [Bool.eq_false_iff]
      intro hp
      exact h (List.isPrefixOf_iff_prefix.mp hp).isInfix
    have h2 : ¬ pat <:+: cs := fun hi => h (hi.trans (List.suffix_cons c cs).isInfix)
    simp only [noMatchFrom, matchLiteral, h1, Bool.false_eq_true, if_false, Option.isNone_none,
      Bool.true_and]
    exact ih h2 (some c)

theorem replaceAll_of_noMatch {m : Option Char → JSString → Option Nat}
    (rep : Nat → JSString → JSString) {s : JSString} (h : noMatchFrom m none s = true) :
    replaceAll m rep s = s :=
  replaceAllAux_of_noMatch rep 0 s none h

theorem matchChars_occursAt (keyword : JSString) :
    ∀ (prev : Option Char) (s : JSString), matchChars keyword prev s = true →
      occursAt keyword s = true := by
  induction keyword with
  | nil => intro prev s _; simp [occursAt]
  | cons k ks ih =>
    intro prev s h
    cases s with
    | nil => simp [matchChars] at h
    | cons c cs =>
      simp only [matchChars, Bool.and_eq_true, beq_iff_eq] at h
      have := ih (some c) cs h.2
      simp only [occursAt, beq_iff_eq] at this
      simp only [occursAt, List.length_cons, List.take_succ_cons, List.map_cons, beq_iff_eq,
        h.1, this]

theorem isWordChar_of_canonicalize_eq {c k : Char} (h : canonicalize c = canonicalize k) :
    isWordChar c = isWordChar k := by
  rw [← isWordChar_canonicalize c, ← isWordChar_canonicalize k, h]

theorem matchChars_closing (keyword : JSString) :
    ∀ (prev : Option Char) (s : JSString), matchChars keyword prev s = true →
      isWordAt prev = true → keyword.all isWordChar = true →
      isWordAt (s.drop keyword.length).head? = false := by
  induction keyword with
  | nil =>
    intro prev s h hp _
    simp only [matchChars, wordBoundary, hp, bne_iff_ne, ne_eq] at h
    simp only [List.length_nil, List.drop_zero]
    cases hh : isWordAt s.head? with
    | false => rfl
    | true => exact absurd hh.symm h
  | cons k ks ih =>
    intro prev s h _ hk
    cases s with
    | nil => simp [matchChars] at h
    | cons c cs =>
      simp only [matchChars, Bool.and_eq_true, beq_iff_eq] at h
      simp only [List.all_cons, Bool.and_eq_true] at hk
      have hc : isWordAt (some c) = true := by
        simp only [isWordAt]
        rw [isWordChar_of_canonicalize_eq h.1]
        exact hk.1
      simpa using ih (some c) cs h.2 hc hk.2

theorem wholeWordAt_of_matchKeyword {keyword : JSString} (hne : keyword ≠ [])
    (hk : keyword.all isWordChar = true) (prev : Option Char) (s : JSString)
    (h : (matchKeyword keyword prev s).isNone = false) : wholeWordAt keyword prev s = true := by
  unfold matchKeyword at h
  split_ifs at h with hc
  · simp only [Bool.and_eq_true] at hc
    obtain ⟨hb, hm⟩ := hc
    cases keyword with
    | nil => exact absurd rfl hne
    | cons k ks =>
      cases s with
      | nil => simp [matchChars] at hm
      | cons c cs =>
        have hocc := matchChars_occursAt (k :: ks) prev (c :: cs) hm
        simp only [matchChars, Bool.and_eq_true, beq_iff_eq] at hm
        simp only [List.all_cons, Bool.and_eq_true] at hk
        have hc : isWordAt (some c) = true := by
          simp only [isWordAt]
          rw [isWordChar_of_canonicalize_eq hm.1]
          exact hk.1
        have hprev : isWordAt prev = false := by
          simp only [wordBoundary, List.head?_cons, hc, bne_iff_ne, ne_eq] at hb
          cases hh : isWordAt prev with
          | false => rfl
          | true => exact absurd hh hb
        have hnext := matchChars_closing ks (some c) cs hm.2 hc hk.2
        have hnext' : isWordAt (List.drop (k :: ks).length (c :: cs)).head? = false := by
          simpa using hnext
        unfold wholeWordAt
        unfold occursAt at hocc
        rw [hocc, hprev, hnext']
        rfl
  · simp at h

theorem noMatchFrom_of_no_wholeWord {keyword : JSString} (hne : keyword ≠ [])
    (hk : keyword.all isWordChar = true) (s : JSString) :
    ∀ prev : Option Char, hasWholeWordFrom keyword prev s = false →
      noMatchFrom (matchKeyword keyword) prev s = true := by
  induction s with
  | nil => intro prev _; rfl
  | cons c cs ih =>
    intro prev h
    simp only [hasWholeWordFrom, Bool.or_eq_false_iff] at h
    simp only [noMatchFrom, Bool.and_eq_true]
    refine ⟨?_, ih (some c) h.2⟩
    cases hm : (matchKeyword keyword prev (c :: cs)).isNone with
    | true => rfl
    | false =>
      have := wholeWordAt_of_matchKeyword hne hk prev (c :: cs) hm
      rw [h.1] at this
      exact absurd this (by decide)

theorem noMatchFrom_of_no_occurrence (keyword : JSString) (s : JSString) :
    ∀ prev : Option Char, hasOccurrence keyword s = false →
      noMatchFrom (matchKeyword keyword) prev s = true := by
  induction s with
  | nil => intro prev _; rfl
  | cons c cs ih =>
    intro prev h
    simp only [hasOccurrence, Bool.or_eq_false_iff] at h
    simp only [noMatchFrom, Bool.and_eq_true]
    refine ⟨?_, ih (some c) h.2⟩
    unfold matchKeyword
    split_ifs with hc
    · simp only [Bool.and_eq_true] at hc
      have := matchChars_occursAt keyword prev (c :: cs) hc.2
      rw [h.1] at this
      exact absurd this (by decide)
    · rfl

theorem keywordRule_of_absent {keyword : JSString} (hne : keyword ≠ []) {body : JSString}
    (h : keywordAbsent keyword body = true) : keywordRule keyword body = body := by
  unfold keywordAbsent at h
  apply replaceAll_of_noMatch
  split_ifs at h with hk
  · exact noMatchFrom_of_no_wholeWord hne hk body none (by simpa [hasWholeWord] using h)
  · exact noMatchFrom_of_no_occurrence keyword body none (by simpa using h)

theorem keywordStage_of_absent (kws : List JSString) (body : JSString)
    (hne : ∀ kw ∈ kws, kw ≠ []) (h : ∀ kw ∈ kws, keywordAbsent kw body = true) :
    keywordStage kws body = body := by
  induction kws with
  | nil => rfl
  | cons kw kws ih =>
    rw [keywordStage_cons,
      keywordRule_of_absent (hne kw (List.mem_cons_self _ _)) (h kw (List.mem_cons_self _ _))]
    exact ih (fun k hk => hne k (List.mem_cons_of_mem _ hk))
      (fun k hk => h k (List.mem_cons_of_mem _ hk))

/-- A body with nothing for the rules to rewrite comes back unchanged, for every host and
every random source: none of the three tokens, no position where the warning regex matches,
no newline, no whole-word occurrence (up to case) of a keyword made of letters and digits,
and no occurrence at all of a CJK keyword.  The function is total, so it never fails. -/
theorem parseDocumentContent_of_nothing_to_rewrite (h : Host) (rnd : Nat → JSString)
    (body : JSString) (h1 : ¬ redactedToken <:+: body) (h2 : ¬ corruptedToken <:+: body)
    (h3 : ¬ glitchToken <:+: body) (h4 : ∀ kw ∈ keywords, keywordAbsent kw body = true)
    (h5 : noMatchFrom matchWarning none body = true) (h6 : '\n' ∉ body) :
    parseDocumentContent h rnd body = body := by
  have h6' : ¬ ['\n'] <:+: body := by
    intro hi
    exact h6 (hi.subset (List.mem_singleton_self _))
  have e1 : redactRule body = body := by
    unfold redactRule
    rw [replaceAll_of_noMatch _ (noMatchFrom_literal _ _ h1 none),
      replaceAll_of_noMatch _ (noMatchFrom_literal _ _ h2 none)]
  have e2 : glitchRule h rnd body = body :=
    replaceAll_of_noMatch _ (noMatchFrom_literal _ _ h3 none)
  have e3 : keywordStage keywords body = body :=
    keywordStage_of_absent keywords body (by decide) h4
  have e4 : warningRule body = body := replaceAll_of_noMatch _ h5
  have e5 : newlineRule body = body :=
    replaceAll_of_noMatch _ (noMatchFrom_literal _ _ h6' none)
  simp only [parseDocumentContent, e1, e2, e3, e4, e5]

set_option maxRecDepth 100000 in
/-- Witness: an unclosed `[数据删除`, a `[警告` that is never closed, an unclosed `[乱码`,
`thorned` and `B40`, which hold keywords only as parts of longer words, pass through
verbatim. -/
theorem parseDocumentContent_of_nothing_to_rewrite_witness :
    keywordAbsent "THORNE".toList "见 [数据删除 与 [警告 thorned B40 [乱码".toList = true ∧
      parseDocumentContent asciiHost (constRnd [])
          "见 [数据删除 与 [警告 thorned B40 [乱码".toList =
        "见 [数据删除 与 [警告 thorned B40 [乱码".toList :=
  ⟨by decide,
    parseDocumentContent_of_nothing_to_rewrite asciiHost (constRnd []) _ (by decide) (by decide)
      (by decide) (by decide) (by decide) (by decide)⟩

/-! ## Invariants of the session along every run -/

theorem after_state_cases (w : World) (r : GameState × List Effect) :
    (w.after r).state = r.1 ∨ (w.after r).state = GameState.init := by
  unfold World.after
  split_ifs
  · exact Or.inr rfl
  · exact Or.inl rfl

theorem step_preserves (P : GameState → Prop) (h0 : P GameState.init)
    (hl : ∀ s id u, P s → P (loginSuccess s id u).1)
    (hc : ∀ env s u, P s → P (commandLoginCallback env s u).1)
    (ho : ∀ env rnd s d, P s → P (openDocument env rnd s d).1)
    (env : Env) (w : World) (a : Action) (h : P w.state) : P (step env w a).state := by
  have key : ∀ (w' : World) (r : GameState × List Effect), P r.1 → P (w'.after r).state := by
    intro w' r hr
    rcases after_state_cases w' r with e | e <;> rw [e]
    · exact hr
    · exact h0
  cases a with
  | loginKeypress key' value =>
    exact key _ _ (by rw [handleLogin_state]; exact h)
  | searchKeypress key' value =>
    exact key _ _ (by rw [handleSearch_state]; exact h)
  | openDocument doc rnd => exact key _ _ (ho env rnd w.state doc h)
  | timer i =>
    simp only [step]
    split
    · exact h
    · rename_i d _
      apply key
      cases d with
      | loginLookup inputId =>
        simp only [runDeferred, loginCallback]
        split
        · exact hl _ _ _ h
        · exact h
      | commandLogin user => exact hc env _ user h
      | showTutorial => exact h

theorem run_preserves (P : GameState → Prop) (h0 : P GameState.init)
    (hl : ∀ s id u, P s → P (loginSuccess s id u).1)
    (hc : ∀ env s u, P s → P (commandLoginCallback env s u).1)
    (ho : ∀ env rnd s d, P s → P (openDocument env rnd s d).1)
    (env : Env) (actions : List Action) :
    ∀ w : World, P w.state → P (run env w actions).state := by
  induction actions with
  | nil => intro w h; exact h
  | cons a rest ih => intro w h; exact ih _ (step_preserves P h0 hl hc ho env w a h)

theorem setAdd_nodup (s : List JSString) (x : JSString) (h : s.Nodup) : (setAdd s x).Nodup := by
  unfold setAdd
  split_ifs with hx
  · exact h
  · rw [List.nodup_append]
    refine ⟨h, List.nodup_singleton x, ?_⟩
    intro a ha hb
    rw [List.mem_singleton] at hb
    subst hb
    exact hx (by simpa using ha)

/-- Along every run of the page, whatever the events (reloads included): the session's
clearance is that of the bound account (0 before any login), and `unlockedDocs` holds no id
twice. -/
theorem session_invariants (env : Env) (actions : List Action) :
    ClearanceBound (run env World.init actions).state ∧
      (run env World.init actions).state.unlockedDocs.Nodup := by
  constructor
  · refine run_preserves ClearanceBound rfl ?_ ?_ ?_ env actions World.init rfl
    · intro s id u _
      unfold loginSuccess
      simp only []
      split_ifs <;> rfl
    · intro env s u _
      rfl
    · intro env rnd s d h
      unfold openDocument
      simp only []
      split_ifs <;> exact h
  · refine run_preserves (fun s => s.unlockedDocs.Nodup) List.nodup_nil ?_ ?_ ?_ env actions
      World.init List.nodup_nil
    · intro s id u h
      unfold loginSuccess
      simp only []
      split_ifs <;> exact h
    · intro env s u h
      exact h
    · intro env rnd s d h
      unfold openDocument
      simp only []
      split_ifs
      · exact h
      · exact setAdd_nodup _ _ h
      · exact setAdd_nodup _ _ h

end HACA
